import Mathlib

/-!
# HomoGenius: the math engine of the homogeneous-ODE explorer

A shallow embedding of the numerical core of `src/main.js`
(`parseEquation`, `evaluateExpression`, `rungeKutta4`, `generateTrajectory`,
`checkHomogeneityNumerical`, `checkHomogeneitySymbolic`, `checkHomogeneity`)
together with theorems about it.

Modelling conventions.

* A JavaScript number is a `JSNum`: a finite value, `+Infinity`, `-Infinity`
  or `NaN`.  Finite values are rationals.  The operators `JSNum.add`,
  `JSNum.sub`, `JSNum.mul`, `JSNum.div` compute finite results exactly; the
  binary64 operators of JavaScript round each exact result (`binary64`).
  Statements whose truth depends on rounding are made over an arbitrary
  `Arithmetic`, or separately for the exact and the binary64 arithmetic.
  The sign of zero is not modelled (a zero divisor counts as `+0`).
* The library `mathjs` is not part of the repository.  What the code uses of
  it is taken as a parameter: evaluating an expression text at `{x, y}`
  (`MathEvaluate`), simplifying an expression text to a string
  (`MathSimplify`) and parsing a text and printing it again (`MathParse`),
  each of which may throw.
* A text is a `String`; the regular-expression rewritings work on its list
  of characters.
* A `try { ... } catch` block is a computation in `Except String` whose
  error case is the handler.
* A `for (let i = 0; i < 200 && c; i++)` loop is a recursion on the number
  of iterations that remain; the loop variable `i` is kept in the state.
-/

namespace HomoGenius

/-! ## JavaScript numbers -/

/-- A JavaScript number: a finite (rational) value, an infinity or NaN. -/
inductive JSNum where
  | fin (q : ℚ)
  | pinf
  | ninf
  | nan
deriving DecidableEq

namespace JSNum

/-- Unary minus. -/
def neg : JSNum → JSNum
  | fin q => fin (-q)
  | pinf => ninf
  | ninf => pinf
  | nan => nan

/-- The operator `+`, finite sums computed exactly. -/
def add : JSNum → JSNum → JSNum
  | nan, _ => nan
  | _, nan => nan
  | fin a, fin b => fin (a + b)
  | fin _, pinf => pinf
  | fin _, ninf => ninf
  | pinf, fin _ => pinf
  | ninf, fin _ => ninf
  | pinf, pinf => pinf
  | ninf, ninf => ninf
  | pinf, ninf => nan
  | ninf, pinf => nan

/-- The operator `-`, finite differences computed exactly. -/
def sub (a b : JSNum) : JSNum := add a (neg b)

/-- An infinity with the sign of `q`, NaN when `q` is zero. -/
def signedInf (q : ℚ) : JSNum :=
  if 0 < q then pinf else if q < 0 then ninf else nan

/-- The operator `*`, finite products computed exactly. -/
def mul : JSNum → JSNum → JSNum
  | nan, _ => nan
  | _, nan => nan
  | fin a, fin b => fin (a * b)
  | fin a, pinf => signedInf a
  | fin a, ninf => signedInf (-a)
  | pinf, fin b => signedInf b
  | ninf, fin b => signedInf (-b)
  | pinf, pinf => pinf
  | ninf, ninf => pinf
  | pinf, ninf => ninf
  | ninf, pinf => ninf

/-- The operator `/`, finite quotients computed exactly.  A finite value
divided by zero is an infinity of the sign of the dividend, and `0 / 0` is
NaN. -/
def div : JSNum → JSNum → JSNum
  | nan, _ => nan
  | _, nan => nan
  | fin a, fin b => if b = 0 then signedInf a else fin (a / b)
  | fin _, pinf => fin 0
  | fin _, ninf => fin 0
  | pinf, fin b => if b < 0 then ninf else pinf
  | ninf, fin b => if b < 0 then pinf else ninf
  | pinf, pinf => nan
  | pinf, ninf => nan
  | ninf, pinf => nan
  | ninf, ninf => nan

/-- The function `Math.abs`. -/
def abs : JSNum → JSNum
  | fin q => fin |q|
  | pinf => pinf
  | ninf => pinf
  | nan => nan

/-- The operator `<`: false as soon as one side is NaN. -/
def lt : JSNum → JSNum → Bool
  | fin a, fin b => decide (a < b)
  | fin _, pinf => true
  | ninf, fin _ => true
  | ninf, pinf => true
  | _, _ => false

/-- The operator `>`. -/
def gt (a b : JSNum) : Bool := lt b a

/-- The function `isFinite`. -/
def isFinite : JSNum → Bool
  | fin _ => true
  | _ => false

end JSNum

/-- A point `[x, y]` of a trajectory. -/
abbrev Point := JSNum × JSNum

/-! ## Strings -/

/-- Replace every occurrence of `pat` by `rep`, scanning from the left and
resuming after each match, as `String.prototype.replace` does with a global
regular expression that is a plain word.  The first argument bounds the
number of scanning steps. -/
def replaceAllAux (pat rep : List Char) : Nat → List Char → List Char
  | 0, s => s
  | _ + 1, [] => []
  | n + 1, c :: cs =>
    if pat.isPrefixOf (c :: cs) && !pat.isEmpty then
      rep ++ replaceAllAux pat rep n ((c :: cs).drop pat.length)
    else
      c :: replaceAllAux pat rep n cs

/-- The call `s.replace(/pat/g, rep)` for a pattern without special characters. -/
def replaceAll (pat rep s : String) : String :=
  String.mk (replaceAllAux pat.data rep.data s.data.length s.data)

/-! ## The equation and the library -/

/-- The state `parsedEquation`: the texts of numerator and denominator and the
preprocessed input they were parsed from. -/
structure ParsedEquation where
  numerator : String
  denominator : String
  original : String
deriving DecidableEq

/-- The library call `math.parse(expr).compile().evaluate({ x, y })`: its
value, or the message of the error it throws. -/
abbrev MathEvaluate := String → JSNum → JSNum → Except String JSNum

/-- The library call `math.simplify(expr).toString()`: its value, or the
message of the error it throws. -/
abbrev MathSimplify := String → Except String String

/-- The text `processedExpr` of `evaluateExpression`. -/
def processedExpr (expr : String) : String :=
  replaceAll "log" "Math.log"
    (replaceAll "exp" "Math.exp"
      (replaceAll "tan" "Math.tan"
        (replaceAll "cos" "Math.cos"
          (replaceAll "sin" "Math.sin" expr))))

/-- The function `evaluateExpression`: rewrite the function names, evaluate,
and return NaN when anything throws. -/
def evaluateExpression (M : MathEvaluate) (expr : String) (x y : JSNum) : JSNum :=
  let processedExpr :=
    replaceAll "log" "Math.log"
      (replaceAll "exp" "Math.exp"
        (replaceAll "tan" "Math.tan"
          (replaceAll "cos" "Math.cos"
            (replaceAll "sin" "Math.sin" expr))))
  match M processedExpr x y with
  | .ok v => v
  | .error _ => JSNum.nan

/-- The function `rungeKutta4`. -/
def rungeKutta4 (x y h : JSNum) (dyDx : JSNum → JSNum → JSNum) : JSNum :=
  let two := JSNum.fin 2
  let k1 := dyDx x y
  let k2 := dyDx (x.add (h.div two)) (y.add ((k1.mul h).div two))
  let k3 := dyDx (x.add (h.div two)) (y.add ((k2.mul h).div two))
  let k4 := dyDx (x.add h) (y.add (k3.mul h))
  y.add ((h.div (JSNum.fin 6)).mul
    (((k1.add (two.mul k2)).add (two.mul k3)).add k4))

/-! ## The trajectory integrator -/

/-- The test `Math.abs(x) < 1e-10`. -/
def nearZero (x : JSNum) : Bool := x.abs.lt (JSNum.fin (1 / 10000000000))

/-- The body of the `try` block of `dyDx`. -/
def dyDxBody (M : MathEvaluate) (eq : ParsedEquation) (x y : JSNum) : Except String JSNum :=
  if nearZero x then pure (JSNum.fin 0)
  else
    pure ((evaluateExpression M eq.numerator x y).div
      (evaluateExpression M eq.denominator x y))

/-- The slope function `dyDx` of `generateTrajectory`. -/
def dyDx (M : MathEvaluate) (eq : ParsedEquation) (x y : JSNum) : JSNum :=
  match dyDxBody M eq x y with
  | .ok v => v
  | .error _ => JSNum.fin 0

/-- The constant `stepSize`. -/
def stepSize : JSNum := JSNum.fin (1 / 20)

/-- The test `Math.abs(currentX) < 10 && Math.abs(currentY) < 10`. -/
def inBounds (x y : JSNum) : Bool :=
  x.abs.lt (JSNum.fin 10) && y.abs.lt (JSNum.fin 10)

/-- The variables of an integration loop. -/
structure LoopState where
  i : Nat
  currentX : JSNum
  currentY : JSNum
  trajectory : List Point

/-- The forward loop, `n` iterations before `i` reaches 200. -/
def forwardLoop (f : JSNum → JSNum → JSNum) : Nat → LoopState → LoopState
  | 0, s => s
  | n + 1, s =>
    if inBounds s.currentX s.currentY then
      let nextY := rungeKutta4 s.currentX s.currentY stepSize f
      let x := s.currentX.add stepSize
      forwardLoop f n
        { i := s.i + 1, currentX := x, currentY := nextY,
          trajectory := s.trajectory ++ [(x, nextY)] }
    else s

/-- The backward loop, `n` iterations before `i` reaches 200. -/
def backwardLoop (f : JSNum → JSNum → JSNum) : Nat → LoopState → LoopState
  | 0, s => s
  | n + 1, s =>
    if inBounds s.currentX s.currentY then
      let prevY := rungeKutta4 s.currentX s.currentY stepSize.neg f
      let x := s.currentX.sub stepSize
      backwardLoop f n
        { i := s.i + 1, currentX := x, currentY := prevY,
          trajectory :=
            if inBounds x prevY then (x, prevY) :: s.trajectory else s.trajectory }
    else s

/-- The state at the end of the forward loop of `generateTrajectory`. -/
def forwardPass (M : MathEvaluate) (eq : ParsedEquation) (x0 y0 : JSNum) : LoopState :=
  forwardLoop (dyDx M eq) 200
    { i := 0, currentX := x0, currentY := y0, trajectory := [(x0, y0)] }

/-- The state at the end of the backward loop of `generateTrajectory`. -/
def backwardPass (M : MathEvaluate) (eq : ParsedEquation) (x0 y0 : JSNum) : LoopState :=
  backwardLoop (dyDx M eq) 200
    { i := 0, currentX := x0, currentY := y0,
      trajectory := (forwardPass M eq x0 y0).trajectory }

/-- The function `generateTrajectory`, on the states it closes over. -/
def generateTrajectory (M : MathEvaluate) (eq : ParsedEquation) (x0 y0 : JSNum)
    (isHomogeneous : Bool) : List Point :=
  if !isHomogeneous then []
  else (backwardPass M eq x0 y0).trajectory

/-- The number of calls of `rungeKutta4` made by `generateTrajectory`. -/
def rk4Steps (M : MathEvaluate) (eq : ParsedEquation) (x0 y0 : JSNum)
    (isHomogeneous : Bool) : Nat :=
  if !isHomogeneous then 0
  else (forwardPass M eq x0 y0).i + (backwardPass M eq x0 y0).i

/-- The points pushed by the forward loop started at `(x, y)` with `n`
iterations left, in pushing order. -/
def forwardPoints (f : JSNum → JSNum → JSNum) : Nat → JSNum → JSNum → List Point
  | 0, _, _ => []
  | n + 1, x, y =>
    if inBounds x y then
      (x.add stepSize, rungeKutta4 x y stepSize f) ::
        forwardPoints f n (x.add stepSize) (rungeKutta4 x y stepSize f)
    else []

/-- The points unshifted by the backward loop started at `(x, y)` with `n`
iterations left, in stepping order (the last one unshifted comes last). -/
def backwardPoints (f : JSNum → JSNum → JSNum) : Nat → JSNum → JSNum → List Point
  | 0, _, _ => []
  | n + 1, x, y =>
    if inBounds x y then
      if inBounds (x.sub stepSize) (rungeKutta4 x y stepSize.neg f) then
        (x.sub stepSize, rungeKutta4 x y stepSize.neg f) ::
          backwardPoints f n (x.sub stepSize) (rungeKutta4 x y stepSize.neg f)
      else backwardPoints f n (x.sub stepSize) (rungeKutta4 x y stepSize.neg f)
    else []

/-! ## The homogeneity classifier -/

/-- The array `testPoints` of `checkHomogeneityNumerical`. -/
def testPoints : List Point :=
  [ (JSNum.fin 2, JSNum.fin 3),
    (JSNum.fin 1, JSNum.fin (-1)),
    (JSNum.fin (-2), JSNum.fin 2),
    (JSNum.fin (-3), JSNum.fin (-4)),
    (JSNum.fin (1 / 10), JSNum.fin (2 / 10)),
    (JSNum.fin 10, JSNum.fin 20),
    (JSNum.fin 1, JSNum.fin 0),
    (JSNum.fin (1 / 1000), JSNum.fin 100) ]

/-- The array `lambdaValues` of `checkHomogeneityNumerical`. -/
def lambdaValues : List JSNum :=
  [JSNum.fin (1 / 10), JSNum.fin (1 / 2), JSNum.fin 2, JSNum.fin 5, JSNum.fin 10]

/-- The slope `N(x, y) / D(x, y)` as the classifier computes it. -/
def slopeAt (M : MathEvaluate) (eq : ParsedEquation) (x y : JSNum) : JSNum :=
  (evaluateExpression M eq.numerator x y).div (evaluateExpression M eq.denominator x y)

/-- The value `scaled` of the classifier for the scale `lam`. -/
def scaledSlope (M : MathEvaluate) (eq : ParsedEquation) (lam x y : JSNum) : JSNum :=
  slopeAt M eq (lam.mul x) (lam.mul y)

/-- The test `Math.abs(original - scaled) > 0.001`. -/
def differs (original scaled : JSNum) : Bool :=
  (original.sub scaled).abs.gt (JSNum.fin (1 / 1000))

/-- The loop over `lambdaValues`: `some false` when it executes `return false`,
`none` when it runs to its end. -/
def lambdaLoop (M : MathEvaluate) (eq : ParsedEquation) (original x y : JSNum) :
    List JSNum → Option Bool
  | [] => none
  | lam :: rest =>
    if differs original (scaledSlope M eq lam x y) then some false
    else lambdaLoop M eq original x y rest

/-- The body of the inner `try` block, for one test point. -/
def pointBody (M : MathEvaluate) (eq : ParsedEquation) (x y : JSNum) :
    Except String (Option Bool) :=
  pure (lambdaLoop M eq (slopeAt M eq x y) x y lambdaValues)

/-- The loop over `testPoints`, the body of the outer `try` block. -/
def pointLoop (M : MathEvaluate) (eq : ParsedEquation) : List Point → Except String Bool
  | [] => pure true
  | (x, y) :: rest =>
    if nearZero x then pointLoop M eq rest
    else
      match pointBody M eq x y with
      | .ok (some b) => pure b
      | .ok none => pointLoop M eq rest
      | .error _ => pointLoop M eq rest

/-- The function `checkHomogeneityNumerical`. -/
def checkHomogeneityNumerical (M : MathEvaluate) (eq : ParsedEquation) : Bool :=
  match pointLoop M eq testPoints with
  | .ok b => b
  | .error _ => false

/-- A word character of a JavaScript regular expression: `[A-Za-z0-9_]`. -/
def isWordChar (c : Char) : Bool := c.isAlphanum || c == '_'

/-- Whether there is a word boundary between a word character and the
neighbour `o` (no neighbour at an end of the text). -/
def boundaryAt (o : Option Char) : Bool :=
  match o with
  | none => true
  | some c => !isWordChar c

/-- The rewriting `.replace(/\b([xy])\b/g, "λ*$1")`; `prev` is the character
before the text that remains. -/
def scaleStandalone (prev : Option Char) : List Char → List Char
  | [] => []
  | c :: cs =>
    if (c == 'x' || c == 'y') && boundaryAt prev && boundaryAt cs.head? then
      'λ' :: '*' :: c :: scaleStandalone (some c) cs
    else c :: scaleStandalone (some c) cs

/-- Whether the text starts with `^` and a digit. -/
def startsWithPower : List Char → Bool
  | '^' :: d :: _ => d.isDigit
  | _ => false

/-- The rewriting `.replace(/\b([xy])\^(\d+)/g, "(λ*$1)^$2")`; `prev` is the
character before the text that remains.  The `^` and the digits of a match
are copied by the steps that follow it, none of them being `x` or `y`. -/
def scalePowers (prev : Option Char) : List Char → List Char
  | [] => []
  | c :: cs =>
    if (c == 'x' || c == 'y') && boundaryAt prev && startsWithPower cs then
      '(' :: 'λ' :: '*' :: c :: ')' :: scalePowers (some c) cs
    else c :: scalePowers (some c) cs

/-- The text `scaledNumerator` (or `scaledDenominator`) built from `expr`. -/
def scaleExpr (expr : String) : String :=
  String.mk (scalePowers none (scaleStandalone none expr.data))

/-- The text `originalExpr`. -/
def originalExpr (eq : ParsedEquation) : String :=
  "(" ++ eq.numerator ++ ")/(" ++ eq.denominator ++ ")"

/-- The text `scaledExpr`. -/
def scaledExpr (eq : ParsedEquation) : String :=
  "(" ++ scaleExpr eq.numerator ++ ")/(" ++ scaleExpr eq.denominator ++ ")"

/-- The body of the `try` block of `checkHomogeneitySymbolic`. -/
def symbolicBody (M : MathEvaluate) (S : MathSimplify) (eq : ParsedEquation) :
    Except String Bool := do
  let originalSimplified ← S (originalExpr eq)
  let scaledSimplified ← S (scaledExpr eq)
  if originalSimplified = replaceAll "λ" "" scaledSimplified then pure true
  else pure (checkHomogeneityNumerical M eq)

/-- The function `checkHomogeneitySymbolic`. -/
def checkHomogeneitySymbolic (M : MathEvaluate) (S : MathSimplify)
    (eq : ParsedEquation) : Bool :=
  match symbolicBody M S eq with
  | .ok b => b
  | .error _ => checkHomogeneityNumerical M eq

/-- The function `checkHomogeneity`. -/
def checkHomogeneity (M : MathEvaluate) (S : MathSimplify) (eq : ParsedEquation) : Bool :=
  checkHomogeneitySymbolic M S eq

/-- The symbolic check confirms a match: both simplifications return and the
simplified original text equals the simplified scaled text with every `λ`
removed. -/
def symbolicConfirmed (S : MathSimplify) (eq : ParsedEquation) : Bool :=
  match S (originalExpr eq), S (scaledExpr eq) with
  | .ok a, .ok b => decide (a = replaceAll "λ" "" b)
  | _, _ => false

/-! ## A concrete evaluator for the examples -/

/-- The values `mathjs` computes for the expression texts of the examples
below; the symbol `xy` is undefined, and every text not listed is taken to
throw. -/
def sampleEvaluate : MathEvaluate := fun expr x y =>
  if expr = "0" then .ok (JSNum.fin 0)
  else if expr = "1" then .ok (JSNum.fin 1)
  else if expr = "y" then .ok y
  else if expr = "x ^ 2" then .ok (x.mul x)
  else if expr = "(x - y)" then .ok (x.sub y)
  else if expr = "(10000 * (x - 2))" then .ok ((JSNum.fin 10000).mul (x.sub (JSNum.fin 2)))
  else if expr = "x + y ^ 2" then .ok (x.add (y.mul y))
  else if expr = "(y ^ 2 + xy)" then .error "Undefined symbol xy"
  else if expr = "1/x" then .ok ((JSNum.fin 1).div x)
  else if expr = "y * y * y" then .ok ((y.mul y).mul y)
  else if expr = "(x * x * x)" then .ok ((x.mul x).mul x)
  else .error "Unexpected expression"


/-! ## The equation parser -/

/-- A character matched by `\s` in a JavaScript regular expression. -/
def isJsSpace (c : Char) : Bool :=
  let n := c.toNat
  (9 ≤ n && n ≤ 13) || n == 32 || n == 160 || n == 5760 ||
    (8192 ≤ n && n ≤ 8202) || n == 8232 || n == 8233 || n == 8239 ||
    n == 8287 || n == 12288 || n == 65279

/-- A character matched by `[xy]`. -/
def isVar (c : Char) : Bool := c == 'x' || c == 'y'

/-- A character matched by `\d`. -/
def isDigitChar (c : Char) : Bool := c.isDigit

/-- The rewriting `.replace(/\s+/g, "")`. -/
def stripSpaces (s : List Char) : List Char := s.filter (fun c => !isJsSpace c)

/-- The rewriting `.replace(/(P)(Q)/g, "$1*$2")` for two character classes
`P` and `Q`: scanning from the left, a `*` is put between a character of `P`
and a following character of `Q`, and the scan resumes after the pair. -/
def insertStar (p q : Char → Bool) : List Char → List Char
  | a :: b :: rest =>
    if p a && q b then a :: '*' :: b :: insertStar p q rest
    else a :: insertStar p q (b :: rest)
  | l => l

/-- The text `processedInput` of `parseEquation`, as a list of characters. -/
def preprocessChars (input : List Char) : List Char :=
  insertStar (fun c => c == ')') (fun c => c == '(')
    (insertStar isVar isDigitChar
      (insertStar isDigitChar isVar (stripSpaces input)))

/-- The text `processedInput` of `parseEquation`. -/
def preprocess (input : String) : String := String.mk (preprocessChars input.data)

/-- The call `s.split("/")`: the pieces of `s` between the slashes. -/
def splitSlash : List Char → List (List Char)
  | [] => [[]]
  | c :: cs =>
    if c == '/' then [] :: splitSlash cs
    else
      match splitSlash cs with
      | seg :: segs => (c :: seg) :: segs
      | [] => [[c]]

/-- The library call `math.parse(text).toString()`: its value, or the message
of the error it throws. -/
abbrev MathParse := String → Except String String

/-- The body of the `try` block of `parseEquation`.  The destructuring
`[numerator, denominator] = processedInput.split("/")` takes the first two
pieces; with fewer than two pieces `denominator` would be `undefined`, which
`math.parse` rejects. -/
def parseEquationBody (P : MathParse) (input : String) : Except String ParsedEquation :=
  let processedInput := preprocess input
  if processedInput.data.contains '/' then
    match splitSlash processedInput.data with
    | numerator :: denominator :: _ => do
      let n ← P (String.mk numerator)
      let d ← P (String.mk denominator)
      pure { numerator := n, denominator := d, original := processedInput }
    | _ => .error "Unexpected type of argument in function parse"
  else do
    let n ← P processedInput
    pure { numerator := n, denominator := "1", original := processedInput }

/-- The function `parseEquation`: a failure is thrown again with the prefix
`Invalid equation format: `. -/
def parseEquation (P : MathParse) (input : String) : Except String ParsedEquation :=
  match parseEquationBody P input with
  | .ok parsed => .ok parsed
  | .error message => .error ("Invalid equation format: " ++ message)

/-- The states `parsedEquation` and `errorMessage`. -/
structure EquationState where
  parsedEquation : ParsedEquation
  errorMessage : String

/-- The usage hint appended to the message of a failed parse. -/
def usageHint : String := ". Try something like '(y^2 + x*y)/x^2' or 'sin(x*y)/x^2'"

/-- The effect that parses and validates `equationInput`. -/
def parseStep (P : MathParse) (equationInput : String) (st : EquationState) :
    EquationState :=
  match parseEquation P equationInput with
  | .ok parsed => { parsedEquation := parsed, errorMessage := "" }
  | .error message => { st with errorMessage := message ++ usageHint }

/-- The point the renderer marks as the initial condition:
`points[Math.floor(points.length / 2)]`, nothing when the index is out of
range. -/
def initialConditionDot (points : List Point) : Option Point :=
  points[points.length / 2]?

/-- Whether some character of class `p` is immediately followed by one of
class `q`. -/
def hasAdjacent (p q : Char → Bool) : List Char → Bool
  | a :: b :: rest => (p a && q b) || hasAdjacent p q (b :: rest)
  | _ => false

/-- The texts `mathjs` prints for the expression texts of the examples below;
`(x` has no closing parenthesis, and every text not listed is taken to
throw. -/
def sampleParse : MathParse := fun text =>
  if text = "(y^2+xy)" then .ok "(y ^ 2 + xy)"
  else if text = "x^2" then .ok "x ^ 2"
  else if text = "x+y^2" then .ok "x + y ^ 2"
  else if text = "x" then .ok "x"
  else if text = "y" then .ok "y"
  else if text = "0" then .ok "0"
  else if text = "2" then .ok "2"
  else if text = "(x" then .error "Parenthesis ) expected (char 3)"
  else .error "Unexpected expression"

/-! ## Polynomial slopes -/

/-- The slope `f(x, y) = a + b*x + c*x^2 + d*x^3`, computed with the
JavaScript operators. -/
def cubicSlope (a b c d : ℚ) (x _y : JSNum) : JSNum :=
  (((JSNum.fin a).add ((JSNum.fin b).mul x)).add
    ((JSNum.fin c).mul (x.mul x))).add ((JSNum.fin d).mul ((x.mul x).mul x))

/-- The antiderivative `P(t) = a*t + b*t^2/2 + c*t^3/3 + d*t^4/4` of the
cubic slope. -/
def cubicPrimitive (a b c d t : ℚ) : ℚ :=
  a * t + b * t ^ 2 / 2 + c * t ^ 3 / 3 + d * t ^ 4 / 4

/-! ## Arithmetic as a parameter

The definitions above compute finite values exactly.  The code computes in
binary64.  The classifier and the Runge-Kutta step are given here once more
over an arbitrary arithmetic, of which the exact operators and the binary64
operators are two instances. -/

/-- The number operations the engine uses: the reading of a decimal literal,
the value `NaN`, the operators `+`, `-`, `*`, `/`, the function `Math.abs`
and the comparison `<` (the comparison `a > b` is `b < a`). -/
structure Arithmetic (α : Type) where
  lit : ℚ → α
  nan : α
  add : α → α → α
  sub : α → α → α
  mul : α → α → α
  div : α → α → α
  abs : α → α
  lt : α → α → Bool

/-- The exact arithmetic of `JSNum`. -/
def exactArithmetic : Arithmetic JSNum where
  lit := JSNum.fin
  nan := JSNum.nan
  add := JSNum.add
  sub := JSNum.sub
  mul := JSNum.mul
  div := JSNum.div
  abs := JSNum.abs
  lt := JSNum.lt

/-- The number of times `n` can be halved before it falls below 2, that is
the largest `e` with `2 ^ e ≤ n` for positive `n`; the first argument bounds
the number of halvings. -/
def log2Aux : Nat → Nat → Nat
  | 0, _ => 0
  | fuel + 1, n => if 2 ≤ n then log2Aux fuel (n / 2) + 1 else 0

/-- The largest `e` with `2 ^ e ≤ n / d`, for positive `n` and `d`. -/
def floorLog2 (n d : Nat) : Int :=
  let k : Int := (log2Aux n n : Int) - (log2Aux d d : Int)
  if d * 2 ^ k.toNat ≤ n * 2 ^ (-k).toNat then k else k - 1

/-- The integer nearest to `n / d`, the even one of the two when `n / d` is
half-way between them. -/
def roundHalfEven (n d : Nat) : Nat :=
  let f := n / d
  let r := n % d
  if 2 * r < d then f
  else if d < 2 * r then f + 1
  else if f % 2 = 0 then f else f + 1

/-- The binary64 value nearest to the rational `q`, ties to even: 53
significant bits, least exponent `-1022` (subnormal values below it), an
infinity when the rounded magnitude reaches `2 ^ 1024`.  The sign of a zero
result is not kept. -/
def roundToDouble (q : ℚ) : JSNum :=
  if q = 0 then JSNum.fin 0
  else
    let n := q.num.natAbs
    let d := q.den
    let t : Int := max (floorLog2 n d) (-1022) - 52
    let m := roundHalfEven (n * 2 ^ (-t).toNat) (d * 2 ^ t.toNat)
    let v : ℚ := mkRat (m * 2 ^ t.toNat : Nat) (2 ^ (-t).toNat)
    if (2 : ℚ) ^ 1024 ≤ v then (if 0 < q then JSNum.pinf else JSNum.ninf)
    else JSNum.fin (if 0 < q then v else -v)

/-- Rounding of the exact result of an operator to binary64. -/
def roundResult : JSNum → JSNum
  | JSNum.fin q => roundToDouble q
  | v => v

/-- The binary64 arithmetic of JavaScript: a literal is read as the nearest
binary64 value and each operator returns the exact result rounded to
binary64.  The sign of zero is not modelled. -/
def binary64 : Arithmetic JSNum where
  lit := roundToDouble
  nan := JSNum.nan
  add := fun a b => roundResult (a.add b)
  sub := fun a b => roundResult (a.sub b)
  mul := fun a b => roundResult (a.mul b)
  div := fun a b => roundResult (a.div b)
  abs := JSNum.abs
  lt := JSNum.lt

/-- The function `evaluateExpression` over an arithmetic. -/
def evaluateExpressionIn {α : Type} (A : Arithmetic α)
    (M : String → α → α → Except String α) (expr : String) (x y : α) : α :=
  match M (processedExpr expr) x y with
  | .ok v => v
  | .error _ => A.nan

/-- The function `rungeKutta4` over an arithmetic. -/
def rungeKutta4In {α : Type} (A : Arithmetic α) (x y h : α) (dyDx : α → α → α) : α :=
  let two := A.lit 2
  let k1 := dyDx x y
  let k2 := dyDx (A.add x (A.div h two)) (A.add y (A.div (A.mul k1 h) two))
  let k3 := dyDx (A.add x (A.div h two)) (A.add y (A.div (A.mul k2 h) two))
  let k4 := dyDx (A.add x h) (A.add y (A.mul k3 h))
  A.add y (A.mul (A.div h (A.lit 6))
    (A.add (A.add (A.add k1 (A.mul two k2)) (A.mul two k3)) k4))

/-- The test `Math.abs(x) < 1e-10` over an arithmetic. -/
def nearZeroIn {α : Type} (A : Arithmetic α) (x : α) : Bool :=
  A.lt (A.abs x) (A.lit (1 / 10000000000))

/-- The array `testPoints` over an arithmetic. -/
def testPointsIn {α : Type} (A : Arithmetic α) : List (α × α) :=
  [ (A.lit 2, A.lit 3),
    (A.lit 1, A.lit (-1)),
    (A.lit (-2), A.lit 2),
    (A.lit (-3), A.lit (-4)),
    (A.lit (1 / 10), A.lit (2 / 10)),
    (A.lit 10, A.lit 20),
    (A.lit 1, A.lit 0),
    (A.lit (1 / 1000), A.lit 100) ]

/-- The array `lambdaValues` over an arithmetic. -/
def lambdaValuesIn {α : Type} (A : Arithmetic α) : List α :=
  [A.lit (1 / 10), A.lit (1 / 2), A.lit 2, A.lit 5, A.lit 10]

/-- The slope `N(x, y) / D(x, y)` as the classifier computes it, over an
arithmetic. -/
def slopeAtIn {α : Type} (A : Arithmetic α) (M : String → α → α → Except String α)
    (eq : ParsedEquation) (x y : α) : α :=
  A.div (evaluateExpressionIn A M eq.numerator x y)
    (evaluateExpressionIn A M eq.denominator x y)

/-- The test `Math.abs(original - scaled) > 0.001` over an arithmetic. -/
def differsIn {α : Type} (A : Arithmetic α) (original scaled : α) : Bool :=
  A.lt (A.lit (1 / 1000)) (A.abs (A.sub original scaled))

/-- The loop over `lambdaValues`, over an arithmetic: `some false` when it
executes `return false`, `none` when it runs to its end. -/
def lambdaLoopIn {α : Type} (A : Arithmetic α) (M : String → α → α → Except String α)
    (eq : ParsedEquation) (original x y : α) : List α → Option Bool
  | [] => none
  | lam :: rest =>
    if differsIn A original (slopeAtIn A M eq (A.mul lam x) (A.mul lam y)) then some false
    else lambdaLoopIn A M eq original x y rest

/-- The body of the inner `try` block for one test point, over an arithmetic. -/
def pointBodyIn {α : Type} (A : Arithmetic α) (M : String → α → α → Except String α)
    (eq : ParsedEquation) (x y : α) : Except String (Option Bool) :=
  pure (lambdaLoopIn A M eq (slopeAtIn A M eq x y) x y (lambdaValuesIn A))

/-- The loop over `testPoints`, the body of the outer `try` block, over an
arithmetic. -/
def pointLoopIn {α : Type} (A : Arithmetic α) (M : String → α → α → Except String α)
    (eq : ParsedEquation) : List (α × α) → Except String Bool
  | [] => pure true
  | (x, y) :: rest =>
    if nearZeroIn A x then pointLoopIn A M eq rest
    else
      match pointBodyIn A M eq x y with
      | .ok (some b) => pure b
      | .ok none => pointLoopIn A M eq rest
      | .error _ => pointLoopIn A M eq rest

/-- The function `checkHomogeneityNumerical` over an arithmetic. -/
def checkHomogeneityNumericalIn {α : Type} (A : Arithmetic α)
    (M : String → α → α → Except String α) (eq : ParsedEquation) : Bool :=
  match pointLoopIn A M eq (testPointsIn A) with
  | .ok b => b
  | .error _ => false

/-- The values `mathjs` computes in binary64 for the two expression texts of
the equation `y*y*y/(x*x*x)`; every text not listed is taken to throw. -/
def sampleEvaluateDouble : MathEvaluate := fun expr x y =>
  if expr = "y * y * y" then .ok (binary64.mul (binary64.mul y y) y)
  else if expr = "(x * x * x)" then .ok (binary64.mul (binary64.mul x x) x)
  else .error "Unexpected expression"

/-! ## Lemmas on numbers -/

theorem JSNum.lt_trans {a b c : JSNum} (h₁ : a.lt b = true) (h₂ : b.lt c = true) :
    a.lt c = true := by
  cases a <;> cases b <;> cases c <;> simp_all [JSNum.lt]
  exact h₁.trans h₂

theorem JSNum.lt_irrefl (a : JSNum) : a.lt a = false := by
  cases a <;> simp [JSNum.lt]

theorem JSNum.abs_lt_fin {x : JSNum} {b : ℚ} (h : x.abs.lt (JSNum.fin b) = true) :
    ∃ q, x = JSNum.fin q := by
  cases x <;> simp_all [JSNum.abs, JSNum.lt]

theorem inBounds_fin {x y : JSNum} (h : inBounds x y = true) : ∃ q, x = JSNum.fin q := by
  simp only [inBounds, Bool.and_eq_true] at h
  exact JSNum.abs_lt_fin h.1

theorem lt_add_stepSize {x y : JSNum} (h : inBounds x y = true) :
    x.lt (x.add stepSize) = true := by
  obtain ⟨q, rfl⟩ := inBounds_fin h
  simp [stepSize, JSNum.add, JSNum.lt]

theorem sub_stepSize_lt {x y : JSNum} (h : inBounds x y = true) :
    (x.sub stepSize).lt x = true := by
  obtain ⟨q, rfl⟩ := inBounds_fin h
  simp [stepSize, JSNum.sub, JSNum.neg, JSNum.add, JSNum.lt]

/-! ## Lemmas on the integration loops -/

theorem forwardLoop_trajectory (f : JSNum → JSNum → JSNum) (n : Nat) (s : LoopState) :
    (forwardLoop f n s).trajectory =
      s.trajectory ++ forwardPoints f n s.currentX s.currentY := by
  induction n generalizing s with
  | zero => simp [forwardLoop, forwardPoints]
  | succ n ih =>
    by_cases h : inBounds s.currentX s.currentY = true
    · simp [forwardLoop, forwardPoints, h, ih]
    · simp [forwardLoop, forwardPoints, h]

theorem backwardLoop_trajectory (f : JSNum → JSNum → JSNum) (n : Nat) (s : LoopState) :
    (backwardLoop f n s).trajectory =
      (backwardPoints f n s.currentX s.currentY).reverse ++ s.trajectory := by
  induction n generalizing s with
  | zero => simp [backwardLoop, backwardPoints]
  | succ n ih =>
    by_cases h : inBounds s.currentX s.currentY = true
    · by_cases h2 : inBounds (s.currentX.sub stepSize)
          (rungeKutta4 s.currentX s.currentY stepSize.neg f) = true
      · simp [backwardLoop, backwardPoints, h, h2, ih]
      · simp [backwardLoop, backwardPoints, h, h2, ih]
    · simp [backwardLoop, backwardPoints, h]

theorem forwardLoop_i (f : JSNum → JSNum → JSNum) (n : Nat) (s : LoopState) :
    (forwardLoop f n s).i ≤ s.i + n := by
  induction n generalizing s with
  | zero => simp [forwardLoop]
  | succ n ih =>
    by_cases h : inBounds s.currentX s.currentY = true
    · simp only [forwardLoop, h, if_true]
      exact (ih _).trans (by simp; omega)
    · simp [forwardLoop, h]

theorem backwardLoop_i (f : JSNum → JSNum → JSNum) (n : Nat) (s : LoopState) :
    (backwardLoop f n s).i ≤ s.i + n := by
  induction n generalizing s with
  | zero => simp [backwardLoop]
  | succ n ih =>
    by_cases h : inBounds s.currentX s.currentY = true
    · simp only [backwardLoop, h, if_true]
      exact (ih _).trans (by simp; omega)
    · simp [backwardLoop, h]

theorem forwardPoints_length (f : JSNum → JSNum → JSNum) (n : Nat) (x y : JSNum) :
    (forwardPoints f n x y).length ≤ n := by
  induction n generalizing x y with
  | zero => simp [forwardPoints]
  | succ n ih =>
    by_cases h : inBounds x y = true
    · simp [forwardPoints, h, ih]
    · simp [forwardPoints, h]

theorem backwardPoints_length (f : JSNum → JSNum → JSNum) (n : Nat) (x y : JSNum) :
    (backwardPoints f n x y).length ≤ n := by
  induction n generalizing x y with
  | zero => simp [backwardPoints]
  | succ n ih =>
    by_cases h : inBounds x y = true
    · by_cases h2 : inBounds (x.sub stepSize) (rungeKutta4 x y stepSize.neg f) = true
      · simp [backwardPoints, h, h2, ih]
      · simp only [backwardPoints, h, h2, if_true]
        exact (ih _ _).trans (Nat.le_succ n)
    · simp [backwardPoints, h]

theorem forwardPoints_gt (f : JSNum → JSNum → JSNum) (n : Nat) (x y : JSNum) :
    ∀ p ∈ forwardPoints f n x y, x.lt p.1 = true := by
  induction n generalizing x y with
  | zero => simp [forwardPoints]
  | succ n ih =>
    by_cases h : inBounds x y = true
    · intro p hp
      simp only [forwardPoints, h, if_true, List.mem_cons] at hp
      rcases hp with rfl | hp
      · exact lt_add_stepSize h
      · exact JSNum.lt_trans (lt_add_stepSize h) (ih _ _ p hp)
    · simp [forwardPoints, h]

theorem forwardPoints_pairwise (f : JSNum → JSNum → JSNum) (n : Nat) (x y : JSNum) :
    (forwardPoints f n x y).Pairwise (fun p q => p.1.lt q.1 = true) := by
  induction n generalizing x y with
  | zero => simp [forwardPoints]
  | succ n ih =>
    by_cases h : inBounds x y = true
    · simp only [forwardPoints, h, if_true, List.pairwise_cons]
      exact ⟨forwardPoints_gt f n _ _, ih _ _⟩
    · simp [forwardPoints, h]

theorem backwardPoints_lt (f : JSNum → JSNum → JSNum) (n : Nat) (x y : JSNum) :
    ∀ p ∈ backwardPoints f n x y, p.1.lt x = true := by
  induction n generalizing x y with
  | zero => simp [backwardPoints]
  | succ n ih =>
    by_cases h : inBounds x y = true
    · intro p hp
      by_cases h2 : inBounds (x.sub stepSize) (rungeKutta4 x y stepSize.neg f) = true
      · simp only [backwardPoints, h, h2, if_true, List.mem_cons] at hp
        rcases hp with rfl | hp
        · exact sub_stepSize_lt h
        · exact JSNum.lt_trans (ih _ _ p hp) (sub_stepSize_lt h)
      · simp only [backwardPoints, h, h2, if_true] at hp
        exact JSNum.lt_trans (ih _ _ p hp) (sub_stepSize_lt h)
    · simp [backwardPoints, h]

theorem backwardPoints_pairwise (f : JSNum → JSNum → JSNum) (n : Nat) (x y : JSNum) :
    (backwardPoints f n x y).Pairwise (fun p q => q.1.lt p.1 = true) := by
  induction n generalizing x y with
  | zero => simp [backwardPoints]
  | succ n ih =>
    by_cases h : inBounds x y = true
    · by_cases h2 : inBounds (x.sub stepSize) (rungeKutta4 x y stepSize.neg f) = true
      · simp only [backwardPoints, h, h2, if_true, List.pairwise_cons]
        exact ⟨backwardPoints_lt f n _ _, ih _ _⟩
      · simp only [backwardPoints, h, h2, if_true]
        exact ih _ _
    · simp [backwardPoints, h]

theorem backwardPoints_inBounds (f : JSNum → JSNum → JSNum) (n : Nat) (x y : JSNum) :
    ∀ p ∈ backwardPoints f n x y, inBounds p.1 p.2 = true := by
  induction n generalizing x y with
  | zero => simp [backwardPoints]
  | succ n ih =>
    by_cases h : inBounds x y = true
    · intro p hp
      by_cases h2 : inBounds (x.sub stepSize) (rungeKutta4 x y stepSize.neg f) = true
      · simp only [backwardPoints, h, h2, if_true, List.mem_cons] at hp
        rcases hp with rfl | hp
        · exact h2
        · exact ih _ _ p hp
      · simp only [backwardPoints, h, h2, if_true] at hp
        exact ih _ _ p hp
    · simp [backwardPoints, h]

/-- The trajectory of a homogeneous equation: the backward points in reverse
stepping order, the seed, the forward points. -/
theorem generateTrajectory_eq (M : MathEvaluate) (eq : ParsedEquation) (x0 y0 : JSNum) :
    generateTrajectory M eq x0 y0 true =
      (backwardPoints (dyDx M eq) 200 x0 y0).reverse ++
        (x0, y0) :: forwardPoints (dyDx M eq) 200 x0 y0 := by
  simp [generateTrajectory, backwardPass, forwardPass, backwardLoop_trajectory,
    forwardLoop_trajectory]

theorem generateTrajectory_pairwise (M : MathEvaluate) (eq : ParsedEquation)
    (x0 y0 : JSNum) (isHomogeneous : Bool) :
    (generateTrajectory M eq x0 y0 isHomogeneous).Pairwise
      (fun p q => p.1.lt q.1 = true) := by
  cases isHomogeneous with
  | false => simp [generateTrajectory]
  | true =>
    rw [generateTrajectory_eq, List.pairwise_append]
    refine ⟨List.pairwise_reverse.mpr (backwardPoints_pairwise _ _ _ _), ?_, ?_⟩
    · rw [List.pairwise_cons]
      exact ⟨forwardPoints_gt _ _ _ _, forwardPoints_pairwise _ _ _ _⟩
    · intro a ha b hb
      have ha2 := backwardPoints_lt _ _ _ _ a (List.mem_reverse.mp ha)
      rcases List.mem_cons.mp hb with rfl | hb
      · exact ha2
      · exact JSNum.lt_trans ha2 (forwardPoints_gt _ _ _ _ b hb)

/-- In a list without duplicates an element has one position only. -/
theorem eq_of_append_cons_eq {α : Type} {a : α} :
    ∀ {l₁ l₂ r₁ r₂ : List α}, (l₁ ++ a :: r₁).Nodup →
      l₁ ++ a :: r₁ = l₂ ++ a :: r₂ → l₁ = l₂ := by
  intro l₁
  induction l₁ with
  | nil =>
    intro l₂ r₁ r₂ hnd h
    cases l₂ with
    | nil => rfl
    | cons c l₂ =>
      simp only [List.nil_append, List.cons_append, List.cons.injEq] at h
      obtain ⟨rfl, rfl⟩ := h
      simp at hnd
  | cons b l₁ ih =>
    intro l₂ r₁ r₂ hnd h
    cases l₂ with
    | nil =>
      simp only [List.nil_append, List.cons_append, List.cons.injEq] at h
      obtain ⟨rfl, -⟩ := h
      simp at hnd
    | cons c l₂ =>
      simp only [List.cons_append, List.cons.injEq] at h
      obtain ⟨rfl, h⟩ := h
      rw [List.cons_append, List.nodup_cons] at hnd
      rw [ih hnd.2 h]

theorem generateTrajectory_nodup (M : MathEvaluate) (eq : ParsedEquation)
    (x0 y0 : JSNum) (isHomogeneous : Bool) :
    (generateTrajectory M eq x0 y0 isHomogeneous).Nodup := by
  refine (generateTrajectory_pairwise M eq x0 y0 isHomogeneous).imp ?_
  intro p q h hpq
  rw [hpq, JSNum.lt_irrefl] at h
  exact Bool.false_ne_true h

/-! ## Lemmas on the classifier -/

theorem lambdaLoop_eq (M : MathEvaluate) (eq : ParsedEquation) (original x y : JSNum)
    (ls : List JSNum) :
    lambdaLoop M eq original x y ls =
      if ∃ lam ∈ ls, differs original (scaledSlope M eq lam x y) = true then some false
      else none := by
  induction ls with
  | nil => simp [lambdaLoop]
  | cons lam rest ih =>
    by_cases h : differs original (scaledSlope M eq lam x y) = true
    · simp [lambdaLoop, h]
    · simp [lambdaLoop, h, ih]

theorem pointLoop_eq (M : MathEvaluate) (eq : ParsedEquation) (pts : List Point) :
    pointLoop M eq pts = .ok (decide (∀ p ∈ pts,
      nearZero p.1 = true ∨
        ∀ lam ∈ lambdaValues,
          differs (slopeAt M eq p.1 p.2) (scaledSlope M eq lam p.1 p.2) = false)) := by
  induction pts with
  | nil => simp [pointLoop, pure, Except.pure]
  | cons p rest ih =>
    obtain ⟨x, y⟩ := p
    by_cases hg : nearZero x = true
    · simp [pointLoop, hg, ih]
    · by_cases hd : ∃ lam ∈ lambdaValues,
          differs (slopeAt M eq x y) (scaledSlope M eq lam x y) = true
      · have hd2 := hd
        obtain ⟨lam, hl, hlam⟩ := hd2
        have : ¬ ∀ lam ∈ lambdaValues,
            differs (slopeAt M eq x y) (scaledSlope M eq lam x y) = false := by
          intro hall
          rw [hall lam hl] at hlam
          exact Bool.false_ne_true hlam
        simp [pointLoop, hg, pointBody, lambdaLoop_eq, hd, pure, Except.pure, this]
      · have hall : ∀ lam ∈ lambdaValues,
            differs (slopeAt M eq x y) (scaledSlope M eq lam x y) = false := by
          intro lam hl
          by_contra hne
          exact hd ⟨lam, hl, by simpa using hne⟩
        simp [pointLoop, hg, pointBody, lambdaLoop_eq, hd, pure, Except.pure, ih]
        exact fun _ => hall

theorem testPoints_not_skipped :
    ∀ p ∈ testPoints, nearZero p.1 = false := by
  decide!

/-! ## The trajectory integrator: claims -/

/-- C1 (as stated, refuted): for the equation `x + y^2`, which the numerical
check classifies as not homogeneous, `generateTrajectory` called with
`isHomogeneous = false` returns the empty sequence, which does not contain
the seed `(1, 1)`. -/
theorem generateTrajectory_not_homogeneous_empty :
    checkHomogeneityNumerical sampleEvaluate ⟨"x + y ^ 2", "1", "x+y^2"⟩ = false ∧
    generateTrajectory sampleEvaluate ⟨"x + y ^ 2", "1", "x+y^2"⟩
      (JSNum.fin 1) (JSNum.fin 1) false = [] ∧
    (JSNum.fin 1, JSNum.fin 1) ∉
      generateTrajectory sampleEvaluate ⟨"x + y ^ 2", "1", "x+y^2"⟩
        (JSNum.fin 1) (JSNum.fin 1) false := by
  refine ⟨by decide!, by simp [generateTrajectory], by simp [generateTrajectory]⟩

/-- C1 (amended): when `isHomogeneous` is true, for every parsed equation and
every seed point the sequence returned by `generateTrajectory` is non-empty
and contains the seed point; when `isHomogeneous` is false the sequence is
empty. -/
theorem generateTrajectory_contains_seed (M : MathEvaluate) (eq : ParsedEquation)
    (x0 y0 : JSNum) :
    generateTrajectory M eq x0 y0 true ≠ [] ∧
      (x0, y0) ∈ generateTrajectory M eq x0 y0 true ∧
      generateTrajectory M eq x0 y0 false = [] := by
  rw [generateTrajectory_eq]
  refine ⟨by simp, by simp, by simp [generateTrajectory]⟩

/-- C2 (failing input): for the equation `0` (numerator `0`, denominator `1`),
which the numerical check classifies as homogeneous, and the seed
`(9.98, 0)` the forward loop runs once, and the point
`(10.03, 0)`, whose `|x|` is not below 10, is pushed after the seed and is
part of the returned sequence. -/
theorem forward_pass_appends_breaching_point :
    checkHomogeneityNumerical sampleEvaluate ⟨"0", "1", "0"⟩ = true ∧
    (forwardPass sampleEvaluate ⟨"0", "1", "0"⟩ (JSNum.fin (499 / 50)) (JSNum.fin 0)).trajectory
      = [(JSNum.fin (499 / 50), JSNum.fin 0), (JSNum.fin (1003 / 100), JSNum.fin 0)] ∧
    (JSNum.fin (1003 / 100), JSNum.fin 0) ∈
      generateTrajectory sampleEvaluate ⟨"0", "1", "0"⟩
        (JSNum.fin (499 / 50)) (JSNum.fin 0) true ∧
    (JSNum.fin (1003 / 100)).abs.lt (JSNum.fin 10) = false := by
  have h : forwardPoints (dyDx sampleEvaluate ⟨"0", "1", "0"⟩) 200
      (JSNum.fin (499 / 50)) (JSNum.fin 0) = [(JSNum.fin (1003 / 100), JSNum.fin 0)] := by
    decide!
  refine ⟨by decide!, ?_, ?_, by decide!⟩
  · rw [forwardPass, forwardLoop_trajectory, h]
    rfl
  · rw [generateTrajectory_eq, h]
    simp

/-- C3: every element that precedes the seed in the sequence returned by
`generateTrajectory` satisfies `|x| < 10` and `|y| < 10`, and there are at
most 200 of them. -/
theorem elements_before_seed_in_bounds (M : MathEvaluate) (eq : ParsedEquation)
    (x0 y0 : JSNum) (isHomogeneous : Bool) (pre post : List Point)
    (h : generateTrajectory M eq x0 y0 isHomogeneous = pre ++ (x0, y0) :: post) :
    (∀ p ∈ pre, p.1.abs.lt (JSNum.fin 10) = true ∧ p.2.abs.lt (JSNum.fin 10) = true) ∧
      pre.length ≤ 200 := by
  cases isHomogeneous with
  | false => simp [generateTrajectory] at h
  | true =>
    have hnd := generateTrajectory_nodup M eq x0 y0 true
    rw [generateTrajectory_eq] at h hnd
    have hpre := eq_of_append_cons_eq hnd h
    subst hpre
    constructor
    · intro p hp
      have := backwardPoints_inBounds _ _ _ _ p (List.mem_reverse.mp hp)
      simpa [inBounds] using this
    · rw [List.length_reverse]
      exact backwardPoints_length _ _ _ _

/-- C3 (witness): for the equation `0` and the seed `(-9.93, 0)` the backward
pass keeps `(-9.98, 0)` and drops `(-10.03, 0)`. -/
theorem elements_before_seed_in_bounds_witness :
    (∀ p ∈ [((JSNum.fin (-499 / 50), JSNum.fin 0) : Point)],
      p.1.abs.lt (JSNum.fin 10) = true ∧ p.2.abs.lt (JSNum.fin 10) = true) ∧
      [((JSNum.fin (-499 / 50), JSNum.fin 0) : Point)].length ≤ 200 :=
  elements_before_seed_in_bounds sampleEvaluate ⟨"0", "1", "0"⟩
    (JSNum.fin (-993 / 100)) (JSNum.fin 0) true
    [(JSNum.fin (-499 / 50), JSNum.fin 0)]
    (forwardPoints (dyDx sampleEvaluate ⟨"0", "1", "0"⟩) 200
      (JSNum.fin (-993 / 100)) (JSNum.fin 0))
    (by
      have h : backwardPoints (dyDx sampleEvaluate ⟨"0", "1", "0"⟩) 200
          (JSNum.fin (-993 / 100)) (JSNum.fin 0) = [(JSNum.fin (-499 / 50), JSNum.fin 0)] := by
        decide!
      rw [generateTrajectory_eq, h]
      rfl)

/-- C4: for every equation, seed point and homogeneity state the sequence
returned by `generateTrajectory` has at most 401 elements, and at most 400
calls of `rungeKutta4` are made. -/
theorem generateTrajectory_length_le (M : MathEvaluate) (eq : ParsedEquation)
    (x0 y0 : JSNum) (isHomogeneous : Bool) :
    (generateTrajectory M eq x0 y0 isHomogeneous).length ≤ 401 ∧
      rk4Steps M eq x0 y0 isHomogeneous ≤ 400 := by
  cases isHomogeneous with
  | false => simp [generateTrajectory, rk4Steps]
  | true =>
    constructor
    · rw [generateTrajectory_eq]
      have h1 := backwardPoints_length (dyDx M eq) 200 x0 y0
      have h2 := forwardPoints_length (dyDx M eq) 200 x0 y0
      simp only [List.length_append, List.length_reverse, List.length_cons]
      omega
    · have h1 := forwardLoop_i (dyDx M eq) 200
        { i := 0, currentX := x0, currentY := y0, trajectory := [(x0, y0)] }
      have h2 := backwardLoop_i (dyDx M eq) 200
        { i := 0, currentX := x0, currentY := y0,
          trajectory := (forwardPass M eq x0 y0).trajectory }
      simp only [rk4Steps, forwardPass, backwardPass] at *
      simp only [Bool.not_true, Bool.false_eq_true, if_false]
      omega

/-- C5: the x-coordinates of the sequence returned by `generateTrajectory` are
strictly increasing from the first element to the last, and the sequence of a
homogeneous equation is the backward points in reverse stepping order, then
the seed, then the forward points in stepping order. -/
theorem generateTrajectory_strictly_increasing (M : MathEvaluate) (eq : ParsedEquation)
    (x0 y0 : JSNum) (isHomogeneous : Bool) :
    (generateTrajectory M eq x0 y0 isHomogeneous).Pairwise
        (fun p q => p.1.lt q.1 = true) ∧
      generateTrajectory M eq x0 y0 true =
        (backwardPoints (dyDx M eq) 200 x0 y0).reverse ++
          (x0, y0) :: forwardPoints (dyDx M eq) 200 x0 y0 :=
  ⟨generateTrajectory_pairwise M eq x0 y0 isHomogeneous, generateTrajectory_eq M eq x0 y0⟩

/-- C6 (failing input): for the equation `y/(x-y)`, which the numerical check
classifies as homogeneous, the denominator evaluates to 0 at the seed
`(1, 1)`, yet `dyDx` returns `Infinity` there, the second stage of
`rungeKutta4` receives the infinite ordinate `1 + Infinity * 0.05 / 2`, and
the step returns NaN. -/
theorem dyDx_zero_denominator_infinite :
    checkHomogeneityNumerical sampleEvaluate ⟨"y", "(x - y)", "y/(x-y)"⟩ = true ∧
    evaluateExpression sampleEvaluate "(x - y)" (JSNum.fin 1) (JSNum.fin 1) = JSNum.fin 0 ∧
    dyDx sampleEvaluate ⟨"y", "(x - y)", "y/(x-y)"⟩ (JSNum.fin 1) (JSNum.fin 1)
      = JSNum.pinf ∧
    (JSNum.fin 1).add
      (((dyDx sampleEvaluate ⟨"y", "(x - y)", "y/(x-y)"⟩ (JSNum.fin 1) (JSNum.fin 1)).mul
        stepSize).div (JSNum.fin 2)) = JSNum.pinf ∧
    rungeKutta4 (JSNum.fin 1) (JSNum.fin 1) stepSize
      (dyDx sampleEvaluate ⟨"y", "(x - y)", "y/(x-y)"⟩) = JSNum.nan := by
  decide!

/-- C7 (failing input): for the default equation `(y^2 + xy)/x^2` the
evaluation of the numerator throws at `(1, 1)` (`xy` is an undefined symbol),
`evaluateExpression` turns the error into NaN, and `dyDx` returns NaN, not 0. -/
theorem dyDx_evaluation_throws_nan :
    sampleEvaluate "(y ^ 2 + xy)" (JSNum.fin 1) (JSNum.fin 1)
      = .error "Undefined symbol xy" ∧
    evaluateExpression sampleEvaluate "(y ^ 2 + xy)" (JSNum.fin 1) (JSNum.fin 1)
      = JSNum.nan ∧
    dyDx sampleEvaluate ⟨"(y ^ 2 + xy)", "x ^ 2", "(y^2+xy)/x^2"⟩ (JSNum.fin 1) (JSNum.fin 1)
      = JSNum.nan :=
  ⟨rfl, by decide!, by decide!⟩

/-! ## The homogeneity classifier: claims -/

/-- C9 (failing input): for the equation `1/(10000*(x-2))` every pair of a test
point and a scale has a non-finite original slope, a non-finite scaled slope,
or `|original - scaled| <= 0.001`, yet `checkHomogeneityNumerical` returns
false: at the point `(2, 3)` the original slope is `Infinity`, the scaled
slope for `λ = 0.1` is finite, and the pair counts as a failure. -/
theorem checkHomogeneityNumerical_infinite_slope_fails :
    (∀ p ∈ testPoints, ∀ lam ∈ lambdaValues,
      (slopeAt sampleEvaluate ⟨"1", "(10000 * (x - 2))", "1/(10000*(x-2))"⟩ p.1 p.2).isFinite = false ∨
      (scaledSlope sampleEvaluate ⟨"1", "(10000 * (x - 2))", "1/(10000*(x-2))"⟩ lam p.1 p.2).isFinite
        = false ∨
      differs (slopeAt sampleEvaluate ⟨"1", "(10000 * (x - 2))", "1/(10000*(x-2))"⟩ p.1 p.2)
        (scaledSlope sampleEvaluate ⟨"1", "(10000 * (x - 2))", "1/(10000*(x-2))"⟩ lam p.1 p.2)
        = false) ∧
    slopeAt sampleEvaluate ⟨"1", "(10000 * (x - 2))", "1/(10000*(x-2))"⟩ (JSNum.fin 2) (JSNum.fin 3)
      = JSNum.pinf ∧
    scaledSlope sampleEvaluate ⟨"1", "(10000 * (x - 2))", "1/(10000*(x-2))"⟩ (JSNum.fin (1 / 10))
      (JSNum.fin 2) (JSNum.fin 3) = JSNum.fin (-1 / 18000) ∧
    checkHomogeneityNumerical sampleEvaluate ⟨"1", "(10000 * (x - 2))", "1/(10000*(x-2))"⟩
      = false := by
  decide!

/-- C10: `checkHomogeneity` returns true when the symbolic check confirms a
match (the simplified original text equals the simplified scaled text with
`λ` removed), and in every other case, the texts differing or a
simplification throwing, its result is the result of
`checkHomogeneityNumerical` on the same parsed equation. -/
theorem checkHomogeneity_policy (M : MathEvaluate) (S : MathSimplify)
    (eq : ParsedEquation) :
    checkHomogeneity M S eq =
      if symbolicConfirmed S eq then true else checkHomogeneityNumerical M eq := by
  unfold checkHomogeneity checkHomogeneitySymbolic symbolicBody symbolicConfirmed
  cases h1 : S (originalExpr eq) with
  | error e => simp [bind, Except.bind]
  | ok a =>
    cases h2 : S (scaledExpr eq) with
    | error e => simp [bind, Except.bind]
    | ok b =>
      by_cases h : a = replaceAll "λ" "" b
      · simp [bind, Except.bind, h, pure, Except.pure]
      · simp [bind, Except.bind, h, pure, Except.pure]

/-! ## Lemmas on the preprocessing -/

theorem insertStar_pair_true (p q : Char → Bool) (a b : Char) (rest : List Char)
    (h : (p a && q b) = true) :
    insertStar p q (a :: b :: rest) = a :: '*' :: b :: insertStar p q rest := by
  simp [insertStar, h]

theorem insertStar_pair_false (p q : Char → Bool) (a b : Char) (rest : List Char)
    (h : ¬(p a && q b) = true) :
    insertStar p q (a :: b :: rest) = a :: insertStar p q (b :: rest) := by
  simp [insertStar, h]

theorem insertStar_short (p q : Char → Bool) (l : List Char)
    (hl : ∀ (a b : Char) (rest : List Char), l = a :: b :: rest → False) :
    insertStar p q l = l := by
  match l with
  | [] => simp [insertStar]
  | [a] => simp [insertStar]
  | a :: b :: rest => exact absurd rfl (hl a b rest)

theorem hasAdjacent_short (p q : Char → Bool) (l : List Char)
    (hl : ∀ (a b : Char) (rest : List Char), l = a :: b :: rest → False) :
    hasAdjacent p q l = false := by
  match l with
  | [] => simp [hasAdjacent]
  | [a] => simp [hasAdjacent]
  | a :: b :: rest => exact absurd rfl (hl a b rest)

theorem insertStar_head (p q : Char → Bool) (l : List Char) :
    (insertStar p q l).head? = l.head? := by
  match l with
  | [] => simp [insertStar]
  | [a] => simp [insertStar]
  | a :: b :: rest =>
    by_cases h : (p a && q b) = true
    · simp [insertStar, h]
    · simp [insertStar, h]

theorem hasAdjacent_cons (p q : Char → Bool) (a : Char) (l : List Char) :
    hasAdjacent p q (a :: l) =
      ((p a && (match l.head? with | some b => q b | none => false)) ||
        hasAdjacent p q l) := by
  cases l with
  | nil => simp [hasAdjacent]
  | cons b rest => simp [hasAdjacent]

/-- After the rewriting no character of `p` is followed by one of `q`. -/
theorem insertStar_no_adjacent (p q : Char → Bool)
    (hpq : ∀ c, q c = true → p c = false) (hp : p '*' = false) (hq : q '*' = false)
    (l : List Char) : hasAdjacent p q (insertStar p q l) = false := by
  induction l using insertStar.induct p q with
  | case1 a b rest h ih =>
    have hb : p b = false := hpq b (by simp at h; exact h.2)
    rw [insertStar_pair_true p q a b rest h, hasAdjacent_cons, hasAdjacent_cons,
      hasAdjacent_cons, ih]
    simp [hp, hq, hb]
  | case2 a b rest h ih =>
    rw [insertStar_pair_false p q a b rest h, hasAdjacent_cons, ih, insertStar_head]
    simpa using h
  | case3 l hl => rw [insertStar_short p q l hl, hasAdjacent_short p q l hl]

/-- The rewriting for `p`, `q` creates no adjacency of two other classes that
both exclude `*`. -/
theorem insertStar_preserves (p q r s : Char → Bool) (hr : r '*' = false)
    (hs : s '*' = false) (l : List Char) (h : hasAdjacent r s l = false) :
    hasAdjacent r s (insertStar p q l) = false := by
  induction l using insertStar.induct p q with
  | case1 a b rest hab ih =>
    rw [hasAdjacent_cons, hasAdjacent_cons] at h
    simp only [Bool.or_eq_false_iff] at h
    rw [insertStar_pair_true p q a b rest hab, hasAdjacent_cons, hasAdjacent_cons,
      hasAdjacent_cons, ih h.2.2, insertStar_head]
    simp only [List.head?_cons, hs, hr, Bool.and_false, Bool.false_and, Bool.false_or,
      Bool.or_false]
    exact h.2.1
  | case2 a b rest hab ih =>
    rw [hasAdjacent_cons] at h
    simp only [Bool.or_eq_false_iff] at h
    rw [insertStar_pair_false p q a b rest hab, hasAdjacent_cons, ih h.2, insertStar_head]
    simp only [Bool.or_false]
    exact h.1
  | case3 l hl => rw [insertStar_short p q l hl]; exact h

/-- A text without an adjacency is left as it is. -/
theorem insertStar_eq_self (p q : Char → Bool) (l : List Char)
    (h : hasAdjacent p q l = false) : insertStar p q l = l := by
  induction l using insertStar.induct p q with
  | case1 a b rest hab ih =>
    rw [hasAdjacent_cons] at h
    simp only [Bool.or_eq_false_iff, List.head?_cons] at h
    rw [h.1] at hab
    exact absurd hab Bool.false_ne_true
  | case2 a b rest hab ih =>
    rw [hasAdjacent_cons] at h
    simp only [Bool.or_eq_false_iff] at h
    rw [insertStar_pair_false p q a b rest hab, ih h.2]
  | case3 l hl => exact insertStar_short p q l hl

theorem insertStar_mem (p q : Char → Bool) (l : List Char) :
    ∀ c ∈ insertStar p q l, c ∈ l ∨ c = '*' := by
  induction l using insertStar.induct p q with
  | case1 a b rest hab ih =>
    rw [insertStar_pair_true p q a b rest hab]
    intro c hc
    simp only [List.mem_cons] at hc ⊢
    rcases hc with h | h | h | h
    · exact Or.inl (Or.inl h)
    · exact Or.inr h
    · exact Or.inl (Or.inr (Or.inl h))
    · rcases ih c h with h2 | h2
      · exact Or.inl (Or.inr (Or.inr h2))
      · exact Or.inr h2
  | case2 a b rest hab ih =>
    rw [insertStar_pair_false p q a b rest hab]
    intro c hc
    simp only [List.mem_cons] at hc ⊢
    rcases hc with h | h
    · exact Or.inl (Or.inl h)
    · rcases ih c h with h2 | h2
      · exact Or.inl (Or.inr (by simpa using h2))
      · exact Or.inr h2
  | case3 l hl => rw [insertStar_short p q l hl]; exact fun c hc => Or.inl hc

theorem insertStar_sublist (p q : Char → Bool) (l : List Char) :
    l.Sublist (insertStar p q l) := by
  induction l using insertStar.induct p q with
  | case1 a b rest hab ih =>
    rw [insertStar_pair_true p q a b rest hab]
    exact ((ih.cons₂ b).cons '*').cons₂ a
  | case2 a b rest hab ih =>
    rw [insertStar_pair_false p q a b rest hab]
    exact ih.cons₂ a
  | case3 l hl => rw [insertStar_short p q l hl]

theorem insertStar_filter (p q : Char → Bool) (l : List Char) :
    (insertStar p q l).filter (fun c => c != '*') = l.filter (fun c => c != '*') := by
  induction l using insertStar.induct p q with
  | case1 a b rest hab ih =>
    rw [insertStar_pair_true p q a b rest hab]
    simp only [List.filter_cons, ih]
    simp
  | case2 a b rest hab ih =>
    rw [insertStar_pair_false p q a b rest hab, List.filter_cons, ih]
    simp [List.filter_cons]
  | case3 l hl => rw [insertStar_short p q l hl]

/-- Without an adjacency no two-character piece of the text is a character of
`p` followed by one of `q`. -/
theorem not_infix_of_hasAdjacent (p q : Char → Bool) (l : List Char)
    (h : hasAdjacent p q l = false) (a b : Char) (hp : p a = true) (hq : q b = true) :
    ¬ [a, b] <:+: l := by
  induction l with
  | nil => simp
  | cons c l ih =>
    rw [hasAdjacent_cons] at h
    simp only [Bool.or_eq_false_iff] at h
    intro hin
    rcases List.infix_cons_iff.mp hin with hpre | hin2
    · obtain ⟨t, ht⟩ := hpre
      simp only [List.cons_append, List.nil_append, List.cons.injEq] at ht
      obtain ⟨rfl, rfl⟩ := ht
      simp [hp, hq] at h
    · exact ih h.2 hin2
theorem isVar_not_digit (c : Char) (h : isVar c = true) : isDigitChar c = false := by
  simp only [isVar, Bool.or_eq_true, beq_iff_eq] at h
  rcases h with rfl | rfl <;> decide

theorem isDigit_not_var (c : Char) (h : isDigitChar c = true) : isVar c = false := by
  cases hv : isVar c with
  | false => rfl
  | true => rw [isVar_not_digit c hv] at h; exact absurd h Bool.false_ne_true

theorem open_not_close (c : Char) (h : (c == '(') = true) : (c == ')') = false := by
  rw [beq_iff_eq] at h
  subst h
  decide

theorem stripSpaces_no_space (l : List Char) : ∀ c ∈ stripSpaces l, isJsSpace c = false := by
  intro c hc
  simpa using (List.mem_filter.mp hc).2

theorem preprocessChars_no_space (l : List Char) :
    ∀ c ∈ preprocessChars l, isJsSpace c = false := by
  have star : isJsSpace '*' = false := by decide
  intro c hc
  rcases insertStar_mem _ _ _ c hc with h1 | rfl
  · rcases insertStar_mem _ _ _ c h1 with h2 | rfl
    · rcases insertStar_mem _ _ _ c h2 with h3 | rfl
      · exact stripSpaces_no_space l c h3
      · exact star
    · exact star
  · exact star

theorem preprocessChars_digit_var (l : List Char) :
    hasAdjacent isDigitChar isVar (preprocessChars l) = false := by
  refine insertStar_preserves _ _ _ _ (by decide) (by decide) _ ?_
  refine insertStar_preserves _ _ _ _ (by decide) (by decide) _ ?_
  exact insertStar_no_adjacent _ _ isVar_not_digit (by decide) (by decide) _

theorem preprocessChars_var_digit (l : List Char) :
    hasAdjacent isVar isDigitChar (preprocessChars l) = false := by
  refine insertStar_preserves _ _ _ _ (by decide) (by decide) _ ?_
  exact insertStar_no_adjacent _ _ isDigit_not_var (by decide) (by decide) _

theorem preprocessChars_paren (l : List Char) :
    hasAdjacent (fun c => c == ')') (fun c => c == '(') (preprocessChars l) = false :=
  insertStar_no_adjacent _ _ open_not_close (by decide) (by decide) _

/-- A text without white space and without the three adjacencies is left as
it is by the preprocessing. -/
theorem preprocessChars_eq_self (m : List Char)
    (h0 : ∀ c ∈ m, isJsSpace c = false)
    (h1 : hasAdjacent isDigitChar isVar m = false)
    (h2 : hasAdjacent isVar isDigitChar m = false)
    (h3 : hasAdjacent (fun c => c == ')') (fun c => c == '(') m = false) :
    preprocessChars m = m := by
  have hs : stripSpaces m = m := by
    apply List.filter_eq_self.mpr
    intro c hc
    simp [h0 c hc]
  unfold preprocessChars
  rw [hs, insertStar_eq_self _ _ _ h1, insertStar_eq_self _ _ _ h2,
    insertStar_eq_self _ _ _ h3]

/-- The preprocessing leaves its own output as it is. -/
theorem preprocessChars_idem (l : List Char) :
    preprocessChars (preprocessChars l) = preprocessChars l :=
  preprocessChars_eq_self _ (preprocessChars_no_space l) (preprocessChars_digit_var l)
    (preprocessChars_var_digit l) (preprocessChars_paren l)

theorem preprocess_idem (input : String) : preprocess (preprocess input) = preprocess input := by
  simp only [preprocess, preprocessChars_idem]

theorem parseEquation_congr (P : MathParse) (a b : String)
    (h : preprocess a = preprocess b) : parseEquation P a = parseEquation P b := by
  unfold parseEquation parseEquationBody
  simp only [h]

theorem parseEquationBody_original (P : MathParse) (input : String) (r : ParsedEquation)
    (h : parseEquationBody P input = .ok r) : r.original = preprocess input := by
  unfold parseEquationBody at h
  simp only at h
  split at h
  · split at h
    · rename_i numerator denominator rest hs
      cases hn : P (String.mk numerator) with
      | error e => simp [hn, bind, Except.bind] at h
      | ok n =>
        cases hd : P (String.mk denominator) with
        | error e => simp [hn, hd, bind, Except.bind] at h
        | ok d =>
          simp only [hn, hd, bind, Except.bind, pure, Except.pure, Except.ok.injEq] at h
          rw [← h]
    · simp at h
  · cases hn : P (preprocess input) with
    | error e => simp [hn, bind, Except.bind] at h
    | ok n =>
      simp only [hn, bind, Except.bind, pure, Except.pure, Except.ok.injEq] at h
      rw [← h]

theorem parseEquation_ok_iff (P : MathParse) (input : String) (r : ParsedEquation) :
    parseEquation P input = .ok r ↔ parseEquationBody P input = .ok r := by
  unfold parseEquation
  cases parseEquationBody P input with
  | error e => simp
  | ok v => simp

/-! ## Further lemmas on the classifier and the integrator -/

theorem checkHomogeneity_of_numerical (M : MathEvaluate) (S : MathSimplify)
    (eq : ParsedEquation) (h : checkHomogeneityNumerical M eq = true) :
    checkHomogeneity M S eq = true := by
  unfold checkHomogeneity checkHomogeneitySymbolic symbolicBody
  cases h1 : S (originalExpr eq) with
  | error e => simp [bind, Except.bind, h]
  | ok a =>
    cases h2 : S (scaledExpr eq) with
    | error e => simp [bind, Except.bind, h]
    | ok b =>
      by_cases hab : a = replaceAll "λ" "" b
      · simp [bind, Except.bind, hab, pure, Except.pure]
      · simp [bind, Except.bind, hab, pure, Except.pure, h]

theorem forwardPoints_out (f : JSNum → JSNum → JSNum) (n : Nat) (x y : JSNum)
    (h : inBounds x y = false) : forwardPoints f n x y = [] := by
  cases n with
  | zero => rfl
  | succ n => simp [forwardPoints, h]

theorem backwardPoints_out (f : JSNum → JSNum → JSNum) (n : Nat) (x y : JSNum)
    (h : inBounds x y = false) : backwardPoints f n x y = [] := by
  cases n with
  | zero => rfl
  | succ n => simp [backwardPoints, h]

theorem forwardLoop_out (f : JSNum → JSNum → JSNum) (n : Nat) (s : LoopState)
    (h : inBounds s.currentX s.currentY = false) : forwardLoop f n s = s := by
  cases n with
  | zero => rfl
  | succ n => simp [forwardLoop, h]

theorem backwardLoop_out (f : JSNum → JSNum → JSNum) (n : Nat) (s : LoopState)
    (h : inBounds s.currentX s.currentY = false) : backwardLoop f n s = s := by
  cases n with
  | zero => rfl
  | succ n => simp [backwardLoop, h]

theorem forwardPoints_dropLast_inBounds (f : JSNum → JSNum → JSNum) (n : Nat) (x y : JSNum) :
    ∀ p ∈ (forwardPoints f n x y).dropLast, inBounds p.1 p.2 = true := by
  induction n generalizing x y with
  | zero => simp [forwardPoints]
  | succ n ih =>
    by_cases h : inBounds x y = true
    · intro p hp
      simp only [forwardPoints, h, if_true] at hp
      cases hrest : forwardPoints f n (x.add stepSize) (rungeKutta4 x y stepSize f) with
      | nil => simp [hrest] at hp
      | cons q qs =>
        rw [hrest, List.dropLast_cons₂, List.mem_cons] at hp
        rcases hp with rfl | hp
        · by_contra hout
          rw [forwardPoints_out f n _ _ (by simpa using hout)] at hrest
          exact List.noConfusion hrest
        · rw [← hrest] at hp
          exact ih _ _ p hp
    · simp [forwardPoints, h]

/-! ## The classifier on the examples of the specification: claims -/

/-- C11: the default equation text `(y^2 + xy)/x^2` is parsed into the
numerator `(y ^ 2 + xy)` and the denominator `x ^ 2`, and `checkHomogeneity`
returns true on the result, whatever the simplifier answers: evaluating the
numerator throws (`xy` is one undefined symbol), every slope is NaN and no
comparison `> 0.001` holds. -/
theorem default_equation_homogeneous (S : MathSimplify) :
    parseEquation sampleParse "(y^2 + xy)/x^2"
      = .ok ⟨"(y ^ 2 + xy)", "x ^ 2", "(y^2+xy)/x^2"⟩ ∧
    checkHomogeneity sampleEvaluate S ⟨"(y ^ 2 + xy)", "x ^ 2", "(y^2+xy)/x^2"⟩ = true :=
  ⟨rfl, checkHomogeneity_of_numerical _ _ _ (by decide!)⟩

/-- C12: for the equation `x+y^2` (numerator `x + y ^ 2`, denominator `1`)
`checkHomogeneityNumerical` returns false; at the test point `(2, 3)` with
`λ = 2` the original slope is 11, the scaled slope is 40 and
`|11 - 40| > 0.001`. -/
theorem degree_mismatch_not_homogeneous :
    parseEquation sampleParse "x+y^2" = .ok ⟨"x + y ^ 2", "1", "x+y^2"⟩ ∧
    checkHomogeneityNumerical sampleEvaluate ⟨"x + y ^ 2", "1", "x+y^2"⟩ = false ∧
    (JSNum.fin 2, JSNum.fin 3) ∈ testPoints ∧ JSNum.fin 2 ∈ lambdaValues ∧
    slopeAt sampleEvaluate ⟨"x + y ^ 2", "1", "x+y^2"⟩ (JSNum.fin 2) (JSNum.fin 3)
      = JSNum.fin 11 ∧
    scaledSlope sampleEvaluate ⟨"x + y ^ 2", "1", "x+y^2"⟩ (JSNum.fin 2)
      (JSNum.fin 2) (JSNum.fin 3) = JSNum.fin 40 ∧
    ((JSNum.fin 11).sub (JSNum.fin 40)).abs.gt (JSNum.fin (1 / 1000)) = true :=
  ⟨rfl, by decide!, by decide!, by decide!, by decide!, by decide!, by decide!⟩

/-! ## The equation parser: claims -/

/-- C13 (failing input): for the input `x/y/2` the call `split("/")` yields
the three pieces `x`, `y`, `2`, of which the destructuring keeps two: the
denominator is parsed from `y`, not from the remainder `y/2`, and the piece
`2` is dropped. -/
theorem parseEquation_drops_after_second_slash :
    (splitSlash (preprocess "x/y/2").data).map String.mk = ["x", "y", "2"] ∧
    parseEquation sampleParse "x/y/2" = .ok ⟨"x", "y", "x/y/2"⟩ :=
  ⟨by decide!, rfl⟩

/-- C14 (as stated, refuted): for the input `x/0` the parse succeeds and the
denominator is the literal `0`. -/
theorem parseEquation_zero_denominator :
    parseEquation sampleParse "x/0" = .ok ⟨"x", "0", "x/0"⟩ :=
  rfl

/-- C14 (amended): when `parseEquation` succeeds on an input whose
preprocessed text has no `/`, the denominator is the text `1`, which is not
the literal `0`. -/
theorem parseEquation_denominator (P : MathParse) (input : String) (r : ParsedEquation)
    (h : parseEquation P input = .ok r)
    (hno : (preprocess input).data.contains '/' = false) :
    r.denominator = "1" ∧ r.denominator ≠ "0" := by
  rw [parseEquation_ok_iff] at h
  unfold parseEquationBody at h
  simp only [hno, Bool.false_eq_true, if_false] at h
  cases hn : P (preprocess input) with
  | error e => simp [hn, bind, Except.bind] at h
  | ok n =>
    simp only [hn, bind, Except.bind, pure, Except.pure, Except.ok.injEq] at h
    subst h
    refine ⟨rfl, ?_⟩
    show ("1" : String) ≠ "0"
    decide

/-- C14 (witness): the input `x` has no `/`, and its denominator is `1`. -/
theorem parseEquation_denominator_witness :
    (⟨"x", "1", "x"⟩ : ParsedEquation).denominator = "1" ∧
      (⟨"x", "1", "x"⟩ : ParsedEquation).denominator ≠ "0" :=
  parseEquation_denominator sampleParse "x" ⟨"x", "1", "x"⟩ rfl (by decide)

/-- C15: parsing is idempotent on its own output: when `parseEquation`
succeeds on `e` with the result `r`, it succeeds on `r.original` with the
same result. -/
theorem parseEquation_idempotent (P : MathParse) (e : String) (r : ParsedEquation)
    (h : parseEquation P e = .ok r) : parseEquation P r.original = .ok r := by
  have ho := parseEquationBody_original P e r ((parseEquation_ok_iff P e r).mp h)
  rw [ho, parseEquation_congr P (preprocess e) e (preprocess_idem e)]
  exact h

/-- C15 (witness): the default equation text. -/
theorem parseEquation_idempotent_witness :
    parseEquation sampleParse
      (⟨"(y ^ 2 + xy)", "x ^ 2", "(y^2+xy)/x^2"⟩ : ParsedEquation).original
      = .ok ⟨"(y ^ 2 + xy)", "x ^ 2", "(y^2+xy)/x^2"⟩ :=
  parseEquation_idempotent sampleParse "(y^2 + xy)/x^2"
    ⟨"(y ^ 2 + xy)", "x ^ 2", "(y^2+xy)/x^2"⟩ rfl

/-- C16: the preprocessed text has no white space, no digit immediately
followed by `x` or `y`, no `x` or `y` immediately followed by a digit and no
`)(`; the input without its white space is a subsequence of it, and the two
agree once every `*` is taken out, so that only `*` characters were
inserted. -/
theorem preprocess_spec (input : String) :
    (∀ c ∈ (preprocess input).data, isJsSpace c = false) ∧
    (∀ a b, isDigitChar a = true → isVar b = true →
      ¬ [a, b] <:+: (preprocess input).data) ∧
    (∀ a b, isVar a = true → isDigitChar b = true →
      ¬ [a, b] <:+: (preprocess input).data) ∧
    ¬ [')', '('] <:+: (preprocess input).data ∧
    (stripSpaces input.data).Sublist (preprocess input).data ∧
    (preprocess input).data.filter (fun c => c != '*')
      = (stripSpaces input.data).filter (fun c => c != '*') := by
  refine ⟨preprocessChars_no_space _, ?_, ?_, ?_, ?_, ?_⟩
  · intro a b ha hb
    exact not_infix_of_hasAdjacent _ _ _ (preprocessChars_digit_var _) a b ha hb
  · intro a b ha hb
    exact not_infix_of_hasAdjacent _ _ _ (preprocessChars_var_digit _) a b ha hb
  · exact not_infix_of_hasAdjacent _ _ _ (preprocessChars_paren _) ')' '(' rfl rfl
  · exact ((insertStar_sublist _ _ _).trans (insertStar_sublist _ _ _)).trans
      (insertStar_sublist _ _ _)
  · simp only [preprocess, preprocessChars, insertStar_filter]

/-- C17: when `parseEquation` succeeds, the parse step replaces the parsed
equation by the result and clears the error message; when it fails, the
parse step leaves the parsed equation as it was and sets a non-empty error
message made of the parser's message and the usage hint. -/
theorem parseStep_spec (P : MathParse) (equationInput : String) (st : EquationState) :
    (∀ r, parseEquation P equationInput = .ok r →
      parseStep P equationInput st = { parsedEquation := r, errorMessage := "" }) ∧
    (∀ m, parseEquationBody P equationInput = .error m →
      (parseStep P equationInput st).parsedEquation = st.parsedEquation ∧
      (parseStep P equationInput st).errorMessage
        = "Invalid equation format: " ++ m ++ usageHint ∧
      (parseStep P equationInput st).errorMessage ≠ "") ∧
    ((∃ r, parseEquation P equationInput = .ok r) ∨
      ∃ m, parseEquationBody P equationInput = .error m) := by
  refine ⟨?_, ?_, ?_⟩
  · intro r h
    simp [parseStep, h]
  · intro m h
    have hp : parseEquation P equationInput = .error ("Invalid equation format: " ++ m) := by
      simp [parseEquation, h]
    refine ⟨by simp [parseStep, hp], by simp [parseStep, hp], ?_⟩
    simp only [parseStep, hp]
    intro hempty
    have hlen := congrArg String.length hempty
    simp only [String.length_append] at hlen
    have h1 : "Invalid equation format: ".length = 25 := by decide
    have h2 : "".length = 0 := rfl
    omega
  · cases h : parseEquationBody P equationInput with
    | error m => exact Or.inr ⟨m, rfl⟩
    | ok r => exact Or.inl ⟨r, by simp [parseEquation, h]⟩

/-- C18: `evaluateExpression` is a total function: when the library call
throws it returns NaN, and otherwise it returns the value of the call; the
text `1/x` evaluates to `Infinity` at `x = 0`. -/
theorem evaluateExpression_never_raises (M : MathEvaluate) (expr : String) (x y : JSNum) :
    (∀ e, M (processedExpr expr) x y = .error e →
      evaluateExpression M expr x y = JSNum.nan) ∧
    (∀ v, M (processedExpr expr) x y = .ok v → evaluateExpression M expr x y = v) ∧
    evaluateExpression sampleEvaluate "1/x" (JSNum.fin 0) y = JSNum.pinf := by
  refine ⟨?_, ?_, ?_⟩
  · intro e h
    simp only [evaluateExpression]
    rw [show replaceAll "log" "Math.log" (replaceAll "exp" "Math.exp"
      (replaceAll "tan" "Math.tan" (replaceAll "cos" "Math.cos"
        (replaceAll "sin" "Math.sin" expr)))) = processedExpr expr from rfl, h]
  · intro v h
    simp only [evaluateExpression]
    rw [show replaceAll "log" "Math.log" (replaceAll "exp" "Math.exp"
      (replaceAll "tan" "Math.tan" (replaceAll "cos" "Math.cos"
        (replaceAll "sin" "Math.sin" expr)))) = processedExpr expr from rfl, h]
  · have hp : processedExpr "1/x" = "1/x" := by decide
    have he : evaluateExpression sampleEvaluate "1/x" (JSNum.fin 0) y
        = match sampleEvaluate (processedExpr "1/x") (JSNum.fin 0) y with
          | .ok v => v
          | .error _ => JSNum.nan := rfl
    rw [he, hp]
    simp [sampleEvaluate, JSNum.div, JSNum.signedInf]

/-! ## The trajectory integrator: further claims -/

/-- C19 (failing input): for the default equation, classified as homogeneous,
and the default seed `(1, 1)` the trajectory is `[(1, 1), (1.05, NaN)]`, and
the element at index `floor(2 / 2) = 1`, which the renderer marks as the
initial condition, is `(1.05, NaN)`, not the seed.  For the equation `0` and
the seed `(9.98, 0)` the trajectory has 202 elements, the seed is at index
200 and the marked element, at index 101, is `(5.03, 0)`.  For an equation
classified as not homogeneous the trajectory is empty and there is no
element to mark. -/
theorem initialConditionDot_not_seed :
    initialConditionDot
      (generateTrajectory sampleEvaluate ⟨"x + y ^ 2", "1", "x+y^2"⟩
        (JSNum.fin 1) (JSNum.fin 1) false) = none ∧
    checkHomogeneityNumerical sampleEvaluate ⟨"(y ^ 2 + xy)", "x ^ 2", "(y^2+xy)/x^2"⟩
      = true ∧
    generateTrajectory sampleEvaluate ⟨"(y ^ 2 + xy)", "x ^ 2", "(y^2+xy)/x^2"⟩
      (JSNum.fin 1) (JSNum.fin 1) true
      = [(JSNum.fin 1, JSNum.fin 1), (JSNum.fin (21 / 20), JSNum.nan)] ∧
    initialConditionDot
      (generateTrajectory sampleEvaluate ⟨"(y ^ 2 + xy)", "x ^ 2", "(y^2+xy)/x^2"⟩
        (JSNum.fin 1) (JSNum.fin 1) true)
      = some (JSNum.fin (21 / 20), JSNum.nan) ∧
    (generateTrajectory sampleEvaluate ⟨"0", "1", "0"⟩
      (JSNum.fin (499 / 50)) (JSNum.fin 0) true).length = 202 ∧
    (generateTrajectory sampleEvaluate ⟨"0", "1", "0"⟩
      (JSNum.fin (499 / 50)) (JSNum.fin 0) true)[200]?
      = some (JSNum.fin (499 / 50), JSNum.fin 0) ∧
    initialConditionDot
      (generateTrajectory sampleEvaluate ⟨"0", "1", "0"⟩
        (JSNum.fin (499 / 50)) (JSNum.fin 0) true)
      = some (JSNum.fin (503 / 100), JSNum.fin 0) := by
  decide!

/-- C20 (as stated, refuted): for the equation `x + y^2`, classified as not
homogeneous, and the seed `(10, 0)`, which violates the bound, the result is
the empty sequence, not `[(10, 0)]`. -/
theorem generateTrajectory_out_of_bounds_not_homogeneous :
    checkHomogeneityNumerical sampleEvaluate ⟨"x + y ^ 2", "1", "x+y^2"⟩ = false ∧
    inBounds (JSNum.fin 10) (JSNum.fin 0) = false ∧
    generateTrajectory sampleEvaluate ⟨"x + y ^ 2", "1", "x+y^2"⟩
      (JSNum.fin 10) (JSNum.fin 0) false ≠ [(JSNum.fin 10, JSNum.fin 0)] := by
  refine ⟨by decide!, by decide!, by simp [generateTrajectory]⟩

/-- C20 (amended): every element of the sequence returned by
`generateTrajectory` except possibly the last one satisfies `|x| < 10` and
`|y| < 10`; if the seed violates the bound and `isHomogeneous` is true,
neither pass takes a step and the result is exactly `[(x0, y0)]`. -/
theorem generateTrajectory_all_but_last_in_bounds (M : MathEvaluate)
    (eq : ParsedEquation) (x0 y0 : JSNum) (isHomogeneous : Bool) :
    (∀ p ∈ (generateTrajectory M eq x0 y0 isHomogeneous).dropLast,
      p.1.abs.lt (JSNum.fin 10) = true ∧ p.2.abs.lt (JSNum.fin 10) = true) ∧
    (inBounds x0 y0 = false →
      generateTrajectory M eq x0 y0 true = [(x0, y0)] ∧ rk4Steps M eq x0 y0 true = 0) := by
  constructor
  · cases isHomogeneous with
    | false => simp [generateTrajectory]
    | true =>
      rw [generateTrajectory_eq]
      have hb : ∀ p ∈ (backwardPoints (dyDx M eq) 200 x0 y0).reverse,
          inBounds p.1 p.2 = true :=
        fun p hp => backwardPoints_inBounds _ _ _ _ p (List.mem_reverse.mp hp)
      have key : ∀ p ∈ ((backwardPoints (dyDx M eq) 200 x0 y0).reverse ++
          (x0, y0) :: forwardPoints (dyDx M eq) 200 x0 y0).dropLast,
          inBounds p.1 p.2 = true := by
        intro p hp
        rw [List.dropLast_append_of_ne_nil _ (List.cons_ne_nil _ _), List.mem_append] at hp
        rcases hp with hp | hp
        · exact hb p hp
        · cases hf : forwardPoints (dyDx M eq) 200 x0 y0 with
          | nil => simp [hf] at hp
          | cons q qs =>
            rw [hf, List.dropLast_cons₂, List.mem_cons] at hp
            rcases hp with rfl | hp
            · by_contra hout
              rw [forwardPoints_out _ _ _ _ (by simpa using hout)] at hf
              exact List.noConfusion hf
            · rw [← hf] at hp
              exact forwardPoints_dropLast_inBounds _ _ _ _ p hp
      intro p hp
      simpa [inBounds] using key p hp
  · intro h
    constructor
    · rw [generateTrajectory_eq, forwardPoints_out _ _ _ _ h, backwardPoints_out _ _ _ _ h]
      rfl
    · simp only [rk4Steps, forwardPass, backwardPass, Bool.not_true, Bool.false_eq_true,
        if_false]
      rw [forwardLoop_out _ _ _ h, backwardLoop_out _ _ _ h]
      rfl

/-! ## The classifier and the Runge-Kutta step over an arithmetic -/

theorem lambdaLoopIn_eq {α : Type} (A : Arithmetic α) (M : String → α → α → Except String α)
    (eq : ParsedEquation) (original x y : α) (ls : List α) :
    lambdaLoopIn A M eq original x y ls =
      if ∃ lam ∈ ls,
          differsIn A original (slopeAtIn A M eq (A.mul lam x) (A.mul lam y)) = true
      then some false else none := by
  induction ls with
  | nil => simp [lambdaLoopIn]
  | cons lam rest ih =>
    by_cases h : differsIn A original (slopeAtIn A M eq (A.mul lam x) (A.mul lam y)) = true
    · simp [lambdaLoopIn, h]
    · simp [lambdaLoopIn, h, ih]

theorem pointLoopIn_eq {α : Type} (A : Arithmetic α) (M : String → α → α → Except String α)
    (eq : ParsedEquation) (pts : List (α × α)) :
    pointLoopIn A M eq pts = .ok (decide (∀ p ∈ pts,
      nearZeroIn A p.1 = true ∨
        ∀ lam ∈ lambdaValuesIn A,
          differsIn A (slopeAtIn A M eq p.1 p.2)
            (slopeAtIn A M eq (A.mul lam p.1) (A.mul lam p.2)) = false)) := by
  induction pts with
  | nil => simp [pointLoopIn, pure, Except.pure]
  | cons p rest ih =>
    obtain ⟨x, y⟩ := p
    by_cases hg : nearZeroIn A x = true
    · simp [pointLoopIn, hg, ih]
    · by_cases hd : ∃ lam ∈ lambdaValuesIn A,
          differsIn A (slopeAtIn A M eq x y)
            (slopeAtIn A M eq (A.mul lam x) (A.mul lam y)) = true
      · have hd2 := hd
        obtain ⟨lam, hl, hlam⟩ := hd2
        have : ¬ ∀ lam ∈ lambdaValuesIn A,
            differsIn A (slopeAtIn A M eq x y)
              (slopeAtIn A M eq (A.mul lam x) (A.mul lam y)) = false := by
          intro hall
          rw [hall lam hl] at hlam
          exact Bool.false_ne_true hlam
        simp [pointLoopIn, hg, pointBodyIn, lambdaLoopIn_eq, hd, pure, Except.pure, this]
      · have hall : ∀ lam ∈ lambdaValuesIn A,
            differsIn A (slopeAtIn A M eq x y)
              (slopeAtIn A M eq (A.mul lam x) (A.mul lam y)) = false := by
          intro lam hl
          by_contra hne
          exact hd ⟨lam, hl, by simpa using hne⟩
        simp [pointLoopIn, hg, pointBodyIn, lambdaLoopIn_eq, hd, pure, Except.pure, ih]
        exact fun _ => hall

theorem evaluateExpressionIn_exact (M : MathEvaluate) (expr : String) (x y : JSNum) :
    evaluateExpressionIn exactArithmetic M expr x y = evaluateExpression M expr x y := by
  have he : evaluateExpression M expr x y
      = match M (processedExpr expr) x y with
        | .ok v => v
        | .error _ => JSNum.nan := rfl
  rw [he]
  unfold evaluateExpressionIn
  cases M (processedExpr expr) x y with
  | error e => rfl
  | ok v => rfl

theorem slopeAtIn_exact (M : MathEvaluate) (eq : ParsedEquation) (x y : JSNum) :
    slopeAtIn exactArithmetic M eq x y = slopeAt M eq x y := by
  simp only [slopeAtIn, slopeAt, evaluateExpressionIn_exact]
  rfl

theorem differsIn_exact (original scaled : JSNum) :
    differsIn exactArithmetic original scaled = differs original scaled :=
  rfl

/-- The exact classifier is the classifier over the exact arithmetic. -/
theorem checkHomogeneityNumericalIn_exact (M : MathEvaluate) (eq : ParsedEquation) :
    checkHomogeneityNumericalIn exactArithmetic M eq = checkHomogeneityNumerical M eq := by
  have hl : ∀ (original x y : JSNum) (ls : List JSNum),
      lambdaLoopIn exactArithmetic M eq original x y ls = lambdaLoop M eq original x y ls := by
    intro original x y ls
    induction ls with
    | nil => rfl
    | cons lam rest ih =>
      simp only [lambdaLoopIn, lambdaLoop, ih, slopeAtIn_exact, differsIn_exact, scaledSlope]
      rfl
  have hp : ∀ pts : List Point,
      pointLoopIn exactArithmetic M eq pts = pointLoop M eq pts := by
    intro pts
    induction pts with
    | nil => rfl
    | cons p rest ih =>
      obtain ⟨x, y⟩ := p
      simp only [pointLoopIn, pointLoop, ih, pointBodyIn, pointBody, hl, slopeAtIn_exact]
      rfl
  simp only [checkHomogeneityNumericalIn, checkHomogeneityNumerical, hp]
  rfl

/-- The exact Runge-Kutta step is the step over the exact arithmetic. -/
theorem rungeKutta4In_exact (x y h : JSNum) (f : JSNum → JSNum → JSNum) :
    rungeKutta4In exactArithmetic x y h f = rungeKutta4 x y h f :=
  rfl

/-- For the equation `y*y*y/(x*x*x)`, homogeneous of degree 0, the classifier
returns true over the exact arithmetic and false over binary64: at the test
point `(0.001, 100)` the slope is `1e15` and the slope scaled by 5 is
`999999999999999.875`. -/
theorem cube_quotient_depends_on_rounding :
    checkHomogeneityNumerical sampleEvaluate
      ⟨"y * y * y", "(x * x * x)", "y*y*y/(x*x*x)"⟩ = true ∧
    checkHomogeneityNumericalIn binary64 sampleEvaluateDouble
      ⟨"y * y * y", "(x * x * x)", "y*y*y/(x*x*x)"⟩ = false ∧
    slopeAtIn binary64 sampleEvaluateDouble ⟨"y * y * y", "(x * x * x)", "y*y*y/(x*x*x)"⟩
      (binary64.lit (1 / 1000)) (binary64.lit 100) = JSNum.fin 1000000000000000 ∧
    slopeAtIn binary64 sampleEvaluateDouble ⟨"y * y * y", "(x * x * x)", "y*y*y/(x*x*x)"⟩
      (binary64.mul (binary64.lit 5) (binary64.lit (1 / 1000)))
      (binary64.mul (binary64.lit 5) (binary64.lit 100))
      = JSNum.fin (7999999999999999 / 8) := by
  decide!

/-! ## The classifier and the Runge-Kutta step over an arithmetic: claims -/

/-- C8: over every arithmetic in which no test point has `|x| < 1e-10`,
binary64 included, `checkHomogeneityNumerical` returns false if and only if
some test point `(x, y)` and some scale `λ` of the two fixed lists have
`|N(x,y)/D(x,y) - N(λx,λy)/D(λx,λy)| > 0.001`, the slopes, their difference
and the comparison being the values the code computes; in every other case
it returns true. -/
theorem checkHomogeneityNumericalIn_false_iff {α : Type} (A : Arithmetic α)
    (M : String → α → α → Except String α) (eq : ParsedEquation)
    (hguard : ∀ p ∈ testPointsIn A, nearZeroIn A p.1 = false) :
    (checkHomogeneityNumericalIn A M eq = false ↔
      ∃ p ∈ testPointsIn A, ∃ lam ∈ lambdaValuesIn A,
        A.lt (A.lit (1 / 1000))
          (A.abs (A.sub (slopeAtIn A M eq p.1 p.2)
            (slopeAtIn A M eq (A.mul lam p.1) (A.mul lam p.2)))) = true) ∧
    (checkHomogeneityNumericalIn A M eq = true ↔
      ∀ p ∈ testPointsIn A, ∀ lam ∈ lambdaValuesIn A,
        A.lt (A.lit (1 / 1000))
          (A.abs (A.sub (slopeAtIn A M eq p.1 p.2)
            (slopeAtIn A M eq (A.mul lam p.1) (A.mul lam p.2)))) = false) := by
  have key : checkHomogeneityNumericalIn A M eq = true ↔
      ∀ p ∈ testPointsIn A, ∀ lam ∈ lambdaValuesIn A,
        A.lt (A.lit (1 / 1000))
          (A.abs (A.sub (slopeAtIn A M eq p.1 p.2)
            (slopeAtIn A M eq (A.mul lam p.1) (A.mul lam p.2)))) = false := by
    simp only [checkHomogeneityNumericalIn, pointLoopIn_eq, decide_eq_true_eq]
    constructor
    · intro h p hp lam hl
      rcases h p hp with hg | hd
      · rw [hguard p hp] at hg
        exact absurd hg Bool.false_ne_true
      · exact hd lam hl
    · intro h p hp
      exact Or.inr (fun lam hl => h p hp lam hl)
  refine ⟨?_, key⟩
  rw [← Bool.not_eq_true, key]
  push_neg
  simp only [Bool.not_eq_false]

/-- C8 (witness): the binary64 arithmetic and the equation `y*y*y/(x*x*x)`. -/
theorem checkHomogeneityNumericalIn_false_iff_witness :
    (checkHomogeneityNumericalIn binary64 sampleEvaluateDouble
        ⟨"y * y * y", "(x * x * x)", "y*y*y/(x*x*x)"⟩ = false ↔
      ∃ p ∈ testPointsIn binary64, ∃ lam ∈ lambdaValuesIn binary64,
        binary64.lt (binary64.lit (1 / 1000))
          (binary64.abs (binary64.sub
            (slopeAtIn binary64 sampleEvaluateDouble
              ⟨"y * y * y", "(x * x * x)", "y*y*y/(x*x*x)"⟩ p.1 p.2)
            (slopeAtIn binary64 sampleEvaluateDouble
              ⟨"y * y * y", "(x * x * x)", "y*y*y/(x*x*x)"⟩
              (binary64.mul lam p.1) (binary64.mul lam p.2)))) = true) ∧
    (checkHomogeneityNumericalIn binary64 sampleEvaluateDouble
        ⟨"y * y * y", "(x * x * x)", "y*y*y/(x*x*x)"⟩ = true ↔
      ∀ p ∈ testPointsIn binary64, ∀ lam ∈ lambdaValuesIn binary64,
        binary64.lt (binary64.lit (1 / 1000))
          (binary64.abs (binary64.sub
            (slopeAtIn binary64 sampleEvaluateDouble
              ⟨"y * y * y", "(x * x * x)", "y*y*y/(x*x*x)"⟩ p.1 p.2)
            (slopeAtIn binary64 sampleEvaluateDouble
              ⟨"y * y * y", "(x * x * x)", "y*y*y/(x*x*x)"⟩
              (binary64.mul lam p.1) (binary64.mul lam p.2)))) = false) :=
  checkHomogeneityNumericalIn_false_iff binary64 sampleEvaluateDouble
    ⟨"y * y * y", "(x * x * x)", "y*y*y/(x*x*x)"⟩ (by decide!)

/-- C21 (as stated, refuted): in binary64, for the constant slope 3 and
`x = 0`, `y = 0`, `h = 0.05`, `rungeKutta4` returns the binary64 value
`0.15`, which is neither `y + h*c` computed in binary64
(`0.15000000000000002`) nor the exact value of `y + h*c` for the binary64
value of `h`. -/
theorem rungeKutta4_binary64_not_exact :
    rungeKutta4In binary64 (binary64.lit 0) (binary64.lit 0) (binary64.lit (1 / 20))
        (fun _ _ => binary64.lit 3)
      = JSNum.fin (5404319552844595 / 36028797018963968) ∧
    binary64.add (binary64.lit 0) (binary64.mul (binary64.lit (1 / 20)) (binary64.lit 3))
      = JSNum.fin (1351079888211149 / 9007199254740992) ∧
    binary64.lit (1 / 20) = JSNum.fin (3602879701896397 / 72057594037927936) ∧
    rungeKutta4In binary64 (binary64.lit 0) (binary64.lit 0) (binary64.lit (1 / 20))
        (fun _ _ => binary64.lit 3)
      ≠ binary64.add (binary64.lit 0)
          (binary64.mul (binary64.lit (1 / 20)) (binary64.lit 3)) ∧
    rungeKutta4In binary64 (binary64.lit 0) (binary64.lit 0) (binary64.lit (1 / 20))
        (fun _ _ => binary64.lit 3)
      ≠ JSNum.fin (0 + 3602879701896397 / 72057594037927936 * 3) := by
  decide!

/-- C21 (amended): over the exact arithmetic, every operator computed without
rounding, `rungeKutta4` is exact for a slope that is a polynomial of degree
at most 3 in `x` alone: for all rational `a`, `b`, `c`, `d`, `x`, `y`, `h`
and `f(x, y) = a + b*x + c*x^2 + d*x^3` it returns `y + (P(x + h) - P(x))`
with `P(t) = a*t + b*t^2/2 + c*t^3/3 + d*t^4/4`; for a constant slope `c`
it returns `y + h*c`. -/
theorem rungeKutta4_exact_cubic (a b c d x y h : ℚ) :
    cubicSlope a b c d (JSNum.fin x) (JSNum.fin y)
      = JSNum.fin (a + b * x + c * x ^ 2 + d * x ^ 3) ∧
    rungeKutta4In exactArithmetic (JSNum.fin x) (JSNum.fin y) (JSNum.fin h)
        (cubicSlope a b c d)
      = JSNum.fin (y + (cubicPrimitive a b c d (x + h) - cubicPrimitive a b c d x)) ∧
    rungeKutta4In exactArithmetic (JSNum.fin x) (JSNum.fin y) (JSNum.fin h)
        (fun _ _ => JSNum.fin c)
      = JSNum.fin (y + h * c) := by
  refine ⟨?_, ?_, ?_⟩
  · simp only [cubicSlope, JSNum.add, JSNum.mul]
    congr 1
    ring
  · simp only [rungeKutta4In, exactArithmetic, cubicSlope, cubicPrimitive, JSNum.add,
      JSNum.mul, JSNum.div]
    norm_num
    ring
  · simp only [rungeKutta4In, exactArithmetic, JSNum.add, JSNum.mul, JSNum.div]
    norm_num
    ring

end HomoGenius
